import Mathlib

/-!
# Verification of the protoscan incremental token scanner

Shallow embedding of `src/protoscan.go` (package protoscan): the `Protoscan`
scanner state, the `Scan` driver loop, the `advance`/`hint` validators, the
`setErr` sticky-error rule and the `Err` accessor, plus the reference split
functions needed by the claims (`ScanBytes`, `ScanLines`) and the
comma-splitting callback from the test suite.

Modelling conventions:
* Go `int` values are modelled as `Int`, with the wrap-around of 64-bit
  two's-complement addition made explicit by `w64` at every addition the Go
  source performs (Go signed integer overflow wraps).  The platform is taken
  to be 64-bit, so `maxInt = 2^63 - 1`.
* The `Reader` and `Split` fields of the Go struct are never written by the
  engine, so they are passed to `Scan` as parameters instead of being stored
  in the state; the reader's own private state is the `rst` field (type
  parameter `ρ`).
* A Go `Read(p []byte)` call may write at most `len(p)` bytes into `p` and
  independently *reports* a count `n` (which a misbehaving reader may choose
  freely).  The model therefore takes a reported count `n`, the bytes the
  reader actually writes (truncated to the supplied region, which is Go
  memory safety), and an optional error.
* Go's `for` loops are modelled with fuel (`Option` result, `none` = fuel
  exhausted); fuel is threaded so that theorems can quantify over it.
* Go slice expressions `Buffer[start:end]` panic when the bounds are
  invalid; the model clamps instead.  All theorems that reason about such
  states carry well-formedness hypotheses making the clamp coincide with Go.
-/

/-- The distinct `error` values that can reach the scanner: `io.EOF`,
the `FinalToken` sentinel, the six errors declared in `protoscan.go`,
`io.ErrNoProgress` (set in the read loop), and arbitrary other errors
produced by a reader or a split function (`other n`). -/
inductive ErrVal where
  | EOF
  | FinalToken
  | TooLong
  | NegativeAdvance
  | AdvanceTooFar
  | BadReadCount
  | NegativeHint
  | NoProgress
  | ErrNoProgress
  | other (n : Nat)
deriving DecidableEq, Repr

/-- 64-bit two's-complement wrap-around, applied wherever the Go source adds
or subtracts `int` values. -/
def w64 (x : Int) : Int :=
  (x + 2 ^ 63) % 2 ^ 64 - 2 ^ 63

/-- `maxInt = int(^uint(0) >> 1)` on a 64-bit platform. -/
def maxInt : Int := 2 ^ 63 - 1

/-- What a split function returns, together with what it appended to the
three output containers (which the engine has truncated to length zero
right before the call, so the containers afterwards hold exactly these). -/
structure SplitOut where
  hint : Int
  advance : Int
  tokens : List UInt8
  indexes : List Int
  gaps : List UInt8
  err : Option ErrVal
deriving DecidableEq, Repr

/-- `SplitFunc`: a deterministic split callback, a pure function of the
unconsumed window and the `atEOF` flag. -/
def SplitFunc : Type := List UInt8 → Bool → SplitOut

/-- One reader response: the reported count `n` (untrusted), the bytes the
reader actually wrote into the supplied region, and an optional error. -/
structure ReadOut where
  n : Int
  data : List UInt8
  err : Option ErrVal
deriving DecidableEq, Repr

/-- A reader with private state `ρ`; it is handed the size of the region
`Buffer[end:claim]` it may fill. -/
def Reader (ρ : Type) : Type := ρ → Nat → ReadOut × ρ

/-- The scanner state of `protoscan.go` (`Reader` and `Split` are passed as
parameters, see the module docstring; `rst` is the reader's state). -/
structure Protoscan (ρ : Type) where
  Buffer : List UInt8
  MaxBuffer : Int
  Tokens : List UInt8
  Indexes : List Int
  Gaps : List UInt8
  err : Option ErrVal
  start : Int
  «end» : Int
  empties : Int
  rst : ρ
deriving DecidableEq

/-- `maxBuffer`, the default maximum size for the buffer (64 KiB). -/
def maxBufferDefault : Int := 64 * 1024

/-- `maxConsecutiveIdling`, the ceiling on consecutive empty reads or empty
scans. -/
def maxConsecutiveIdling : Int := 1000

/-- The unconsumed window `Buffer[start:end]` handed to the split function. -/
def Protoscan.window {ρ : Type} (s : Protoscan ρ) : List UInt8 :=
  (s.Buffer.take s.«end».toNat).drop s.start.toNat

/-- `setErr` records the first error encountered
(`if s.err == nil || s.err == io.EOF { s.err = err }`). -/
def Protoscan.setErr {ρ : Type} (s : Protoscan ρ) (e : ErrVal) : Protoscan ρ :=
  if s.err = none ∨ s.err = some ErrVal.EOF then { s with err := some e } else s

/-- `Err` returns the first non-EOF error encountered, suppressing the two
benign sentinels `io.EOF` and `FinalToken`. -/
def Protoscan.Err {ρ : Type} (s : Protoscan ρ) : Option ErrVal :=
  if s.err = some ErrVal.EOF ∨ s.err = some ErrVal.FinalToken then none else s.err

/-- `advance` validates moving the carriage forward by `n` bytes. -/
def Protoscan.advance {ρ : Type} (s : Protoscan ρ) (n : Int) : Option ErrVal :=
  if n < 0 then some ErrVal.NegativeAdvance
  else if w64 (s.start + n) > s.«end» then some ErrVal.AdvanceTooFar
  else none

/-- `hint` validates the read-more hint. -/
def Protoscan.hint {ρ : Type} (s : Protoscan ρ) (n : Int) : Option ErrVal :=
  if n < 0 then some ErrVal.NegativeHint
  else if w64 (s.«end» + n) > s.MaxBuffer ∨ w64 (s.«end» + n) > maxInt then some ErrVal.TooLong
  else none

/-- Overwrite `d` into `B` starting at offset `off`, clamped to the extent of
`B` (a Go reader receives the slice `Buffer[end:claim]` and cannot write
outside it); the result always has the length of `B`. -/
def listWrite (B : List UInt8) (off : Nat) (d : List UInt8) : List UInt8 :=
  B.take off ++ d.take (B.length - off) ++ B.drop (off + (d.take (B.length - off)).length)

/-- The compaction block of `Scan`: `copy(Buffer, Buffer[start:end]);
end -= start; start = 0`.  Bytes beyond the moved window keep their old
values, and the buffer length is unchanged. -/
def compact {ρ : Type} (s : Protoscan ρ) : Protoscan ρ :=
  let w := s.window
  { s with Buffer := w ++ s.Buffer.drop w.length
           «end» := w64 (s.«end» - s.start)
           start := 0 }

/-- The inner refill loop of `Scan` (`for s.end < claim { ... }`), with fuel;
`none` means the fuel ran out before the loop exited. -/
def readLoop {ρ : Type} (read : Reader ρ) (claim : Int) :
    Nat → Protoscan ρ → Option (Protoscan ρ)
  | 0, s => if s.«end» < claim then none else some s
  | rf + 1, s =>
    if s.«end» < claim then
      let reg := (claim - s.«end»).toNat
      let r := read s.rst reg
      let o := r.1
      let s := { s with Buffer := listWrite s.Buffer s.«end».toNat (o.data.take reg)
                        rst := r.2 }
      if o.n < 0 ∨ (s.Buffer.length : Int) - s.«end» < o.n then
        some (s.setErr ErrVal.BadReadCount)
      else
        let s := { s with «end» := w64 (s.«end» + o.n) }
        match o.err with
        | some e => some (s.setErr e)
        | none =>
          if o.n > 0 then some { s with empties := 0 }
          else
            let s := { s with empties := w64 (s.empties + 1) }
            if s.empties > maxConsecutiveIdling then some (s.setErr ErrVal.ErrNoProgress)
            else readLoop read claim rf s
    else some s

/-- Outcome of one iteration of the main loop of `Scan`: a `return`
statement (`done`), falling through to the next iteration (`cont`), or the
inner read loop running out of fuel (`fuelOut`). -/
inductive IterOut (ρ : Type) where
  | done : Bool → Protoscan ρ → IterOut ρ
  | cont : Protoscan ρ → IterOut ρ
  | fuelOut : IterOut ρ

/-- Truncate the three output containers to length zero and record what
the split call appended (`s.Tokens = s.Tokens[:0]` etc. followed by the
callback's appends). -/
def stepTrunc {ρ : Type} (o : SplitOut) (s : Protoscan ρ) : Protoscan ρ :=
  { s with Tokens := o.tokens, Indexes := o.indexes, Gaps := o.gaps }

/-- `s.start += advance`. -/
def stepStart {ρ : Type} (advance : Int) (s : Protoscan ρ) : Protoscan ρ :=
  { s with start := w64 (s.start + advance) }

/-- `s.empties = 0`. -/
def stepZero {ρ : Type} (s : Protoscan ρ) : Protoscan ρ :=
  { s with empties := 0 }

/-- `s.empties++`. -/
def stepIdle {ρ : Type} (s : Protoscan ρ) : Protoscan ρ :=
  { s with empties := w64 (s.empties + 1) }

/-- Shift data to the beginning of the buffer if there is lots of empty
space or space is needed. -/
def stepCompact {ρ : Type} (s : Protoscan ρ) : Protoscan ρ :=
  if s.start > 0 ∧ (s.«end» = (s.Buffer.length : Int) ∨
      s.start > (s.Buffer.length : Int) / 2) then compact s else s

/-- Resize the buffer if it cannot hold a token of the hinted size. -/
def stepGrow {ρ : Type} (claim : Int) (s : Protoscan ρ) : Protoscan ρ :=
  if (s.Buffer.length : Int) < claim then
    { s with Buffer := s.Buffer ++ List.replicate (claim - (s.Buffer.length : Int)).toNat 0 }
  else s

/-- After the token test, the remainder of a loop iteration of `Scan`:
compaction, hint validation, buffer growth, and the refill loop. -/
def scanTail {ρ : Type} (read : Reader ρ) (rf : Nat) (hint : Int) (s : Protoscan ρ) :
    IterOut ρ :=
  let s := stepCompact s
  match s.hint hint with
  | some e => IterOut.done false (s.setErr e)
  | none =>
    let claim := w64 (s.«end» + hint)
    let s := stepGrow claim s
    match readLoop read claim rf s with
    | none => IterOut.fuelOut
    | some s => IterOut.cont s

/-- One iteration of the main loop of `Scan`. -/
def scanIter {ρ : Type} (split : SplitFunc) (read : Reader ρ) (rf : Nat)
    (s : Protoscan ρ) : IterOut ρ :=
  let o := split s.window (s.err = some ErrVal.EOF)
  let s := stepTrunc o s
  match o.err with
  | some e => IterOut.done (e = ErrVal.FinalToken) (s.setErr e)
  | none =>
    if s.err ≠ none then IterOut.done false s
    else
      match s.advance o.advance with
      | some e => IterOut.done false (s.setErr e)
      | none =>
        let s := stepStart o.advance s
        if s.Indexes.length ≠ 0 ∧ o.advance > 0 then IterOut.done true (stepZero s)
        else if o.advance > 0 then scanTail read rf o.hint (stepZero s)
        else
          let s := stepIdle s
          if s.empties > maxConsecutiveIdling then IterOut.done false (s.setErr ErrVal.NoProgress)
          else scanTail read rf o.hint s

/-- The main loop of `Scan` (`for { ... }`), with fuel for the outer loop and
a (per-refill) fuel `rf` for the inner read loop. -/
def scanLoop {ρ : Type} (split : SplitFunc) (read : Reader ρ) (rf : Nat) :
    Nat → Protoscan ρ → Option (Bool × Protoscan ρ)
  | 0, _ => none
  | fuel + 1, s =>
    match scanIter split read rf s with
    | IterOut.done b s' => some (b, s')
    | IterOut.cont s' => scanLoop split read rf fuel s'
    | IterOut.fuelOut => none

/-- `Scan`: fills in the default `MaxBuffer`, short-circuits after a
`FinalToken`, then runs the main loop. -/
def Protoscan.Scan {ρ : Type} (split : SplitFunc) (read : Reader ρ) (fuel rf : Nat)
    (s : Protoscan ρ) : Option (Bool × Protoscan ρ) :=
  let s := if s.MaxBuffer = 0 then { s with MaxBuffer := maxBufferDefault } else s
  if s.err = some ErrVal.FinalToken then some (false, s)
  else scanLoop split read rf fuel s

/-- Repeatedly call `Scan`, collecting the `Tokens` payload of every call
that returns true, stopping at the first false (`m` bounds the number of
calls). -/
def scanAll {ρ : Type} (split : SplitFunc) (read : Reader ρ) (fuel rf : Nat) :
    Nat → Protoscan ρ → Option (List (List UInt8) × Protoscan ρ)
  | 0, _ => none
  | m + 1, s =>
    match Protoscan.Scan split read fuel rf s with
    | none => none
    | some (false, s') => some ([], s')
    | some (true, s') =>
      match scanAll split read fuel rf m s' with
      | none => none
      | some (ts, s'') => some (s'.Tokens :: ts, s'')

/-- A fresh scanner bound to buffer `B`, cap `maxB` and reader state `r`
(the zero value of the unexported fields, as in Go composite literals). -/
def initScanner {ρ : Type} (B : List UInt8) (maxB : Int) (r : ρ) : Protoscan ρ :=
  { Buffer := B, MaxBuffer := maxB, Tokens := [], Indexes := [], Gaps := [],
    err := none, start := 0, «end» := 0, empties := 0, rst := r }

/-- `dropCR` drops a terminal carriage return. -/
def dropCR (data : List UInt8) : List UInt8 :=
  if data.length > 0 ∧ data.getLast? = some 13 then data.take (data.length - 1) else data

/-- `ScanBytes`: copies each byte as a token. -/
def ScanBytes : SplitFunc := fun data atEOF =>
  match data with
  | b :: _ => ⟨0, 1, [b], [1], [], none⟩
  | [] => if atEOF then ⟨0, 0, [], [], [], none⟩ else ⟨1, 0, [], [], [], none⟩

/-- `ScanLines`: copies each line, stripping `\r?\n`; note that the source
appends the (possibly empty) token and its index before checking `atEOF`
in the no-newline branch. -/
def ScanLines : SplitFunc := fun data atEOF =>
  if atEOF ∧ data = [] then ⟨0, 0, [], [], [], none⟩
  else
    match data.findIdx? (fun b => b = 10) with
    | some i => ⟨0, (i : Int) + 1, dropCR (data.take i), [((dropCR (data.take i)).length : Int)],
        [], none⟩
    | none =>
      if atEOF then ⟨0, (data.length : Int), dropCR data, [((dropCR data).length : Int)], [], none⟩
      else ⟨1, 0, dropCR data, [((dropCR data).length : Int)], [], none⟩

/-- The comma-splitting callback of the test suite (`commaSplit` in
`protoscan_test.go`), adapted to the appending `SplitFunc` shape of
`protoscan.go`: each comma-terminated field is a token, a trailing non-empty
field at end of input is delivered via the `FinalToken` sentinel, and a
trailing empty field is not emitted. -/
def commaSplit : SplitFunc := fun data atEOF =>
  match data.findIdx? (fun b => b = 44) with
  | some i => ⟨0, (i : Int) + 1, data.take i, [(i : Int)], [], none⟩
  | none =>
    if atEOF ∧ data.length > 0 then
      ⟨0, (data.length : Int), data, [(data.length : Int)], [], some ErrVal.FinalToken⟩
    else if atEOF then ⟨0, 0, [], [], [], none⟩
    else ⟨1, 0, [], [], [], none⟩

/-- An honest reader over a byte list: each `Read` fills as much of the
requested region as the remaining input allows (like `strings.Reader`),
then reports `(0, io.EOF)` once the input is exhausted. -/
def fullRead : Reader (List UInt8) := fun rem reg =>
  if rem = [] then (⟨0, [], some ErrVal.EOF⟩, rem)
  else
    let k := min reg rem.length
    (⟨(k : Int), rem.take k, none⟩, rem.drop k)

/-- An honest reader that delivers at most `c` bytes per `Read` call. -/
def chunkRead (c : Nat) : Reader (List UInt8) := fun rem reg =>
  if rem = [] then (⟨0, [], some ErrVal.EOF⟩, rem)
  else
    let k := min (min c reg) rem.length
    (⟨(k : Int), rem.take k, none⟩, rem.drop k)

/-- The `endlessZeros` reader of the test suite: always reports zero bytes
read and no error. -/
def zeroRead : Reader Unit := fun u _ => (⟨0, [], none⟩, u)

/-! ## The abstract window machine

A representation-independent mirror of the `Scan` loop driven by the honest
maximal reader `fullRead`: the unconsumed bytes are a plain list `window`,
the unread input a list `rest`, with no buffer offsets, no compaction and no
buffer growth.  Its runs define what it means for a split callback to
partition an input into legal tokens; the simulation theorem for claim C2
shows the buffer-based engine delivers exactly the tokens of a clean
abstract run.  The machine refuses (result `none`) any iteration whose
window-plus-hint demand exceeds `maxB / 2`; this conservative bound keeps
the engine's `end + hint` below `maxB` whatever the compaction state, so a
refused run is simply not a legal partition. -/

/-- State of the abstract window machine. -/
structure AbsScan where
  window : List UInt8
  rest : List UInt8
  maxB : Int
  Tokens : List UInt8
  Indexes : List Int
  Gaps : List UInt8
  err : Option ErrVal
  empties : Int
deriving DecidableEq

/-- `setErr` on the abstract machine. -/
def absSetErr (a : AbsScan) (e : ErrVal) : AbsScan :=
  if a.err = none ∨ a.err = some ErrVal.EOF then { a with err := some e } else a

/-- Outcome of one abstract iteration; `guard` marks an illegal
window-plus-hint demand (not a legal partition). -/
inductive AbsOut where
  | done : Bool → AbsScan → AbsOut
  | cont : AbsScan → AbsOut
  | guard : AbsOut

/-- Abstract mirror of `scanTail`: hint validation and one maximal refill
from `rest` (what the refill loop does under `fullRead`). -/
def absTail (hint : Int) (a : AbsScan) : AbsOut :=
  if hint < 0 then AbsOut.done false (absSetErr a ErrVal.NegativeHint)
  else if (a.window.length : Int) + hint > a.maxB / 2 then AbsOut.guard
  else if hint = 0 then AbsOut.cont a
  else if a.rest = [] then AbsOut.cont (absSetErr a ErrVal.EOF)
  else
    let k := min hint.toNat a.rest.length
    AbsOut.cont { a with window := a.window ++ a.rest.take k, rest := a.rest.drop k,
                         empties := 0 }

/-- Abstract mirror of `scanIter`. -/
def absIter (split : SplitFunc) (a : AbsScan) : AbsOut :=
  let o := split a.window (a.err = some ErrVal.EOF)
  let a := { a with Tokens := o.tokens, Indexes := o.indexes, Gaps := o.gaps }
  match o.err with
  | some e => AbsOut.done (e = ErrVal.FinalToken) (absSetErr a e)
  | none =>
    if a.err ≠ none then AbsOut.done false a
    else if o.advance < 0 then AbsOut.done false (absSetErr a ErrVal.NegativeAdvance)
    else if o.advance > (a.window.length : Int) then
      AbsOut.done false (absSetErr a ErrVal.AdvanceTooFar)
    else
      let a := { a with window := a.window.drop o.advance.toNat }
      if a.Indexes.length ≠ 0 ∧ o.advance > 0 then AbsOut.done true { a with empties := 0 }
      else if o.advance > 0 then absTail o.hint { a with empties := 0 }
      else
        let a := { a with empties := w64 (a.empties + 1) }
        if a.empties > maxConsecutiveIdling then
          AbsOut.done false (absSetErr a ErrVal.NoProgress)
        else absTail o.hint a

/-- Abstract mirror of the main loop. -/
def absScanLoop (split : SplitFunc) : Nat → AbsScan → Option (Bool × AbsScan)
  | 0, _ => none
  | fuel + 1, a =>
    match absIter split a with
    | AbsOut.done b a' => some (b, a')
    | AbsOut.cont a' => absScanLoop split fuel a'
    | AbsOut.guard => none

/-- Abstract mirror of `Scan`. -/
def absScan (split : SplitFunc) (fuel : Nat) (a : AbsScan) : Option (Bool × AbsScan) :=
  if a.err = some ErrVal.FinalToken then some (false, a)
  else absScanLoop split fuel a

/-- Abstract mirror of `scanAll`. -/
def absScanAll (split : SplitFunc) (fuel : Nat) : Nat → AbsScan → Option (List (List UInt8) × AbsScan)
  | 0, _ => none
  | m + 1, a =>
    match absScan split fuel a with
    | none => none
    | some (false, a') => some ([], a')
    | some (true, a') =>
      match absScanAll split fuel m a' with
      | none => none
      | some (ts, a'') => some (a'.Tokens :: ts, a'')

/-- The abstract machine started on a whole input. -/
def absInit (input : List UInt8) (maxB : Int) : AbsScan :=
  { window := [], rest := input, maxB := maxB, Tokens := [], Indexes := [], Gaps := [],
    err := none, empties := 0 }

/-! ## Predicates used by the theorems -/

/-- Split-callback outputs stay far from 64-bit overflow on windows of
plausible size (`2^61` is far above any reachable buffer length). -/
def SplitBounded (split : SplitFunc) : Prop :=
  ∀ w f, (w.length : Int) ≤ 2 ^ 61 →
    (split w f).advance ≤ 2 ^ 62 ∧ (split w f).hint ≤ 2 ^ 62

/-- An honest reader: the reported count is the length of the data it wrote,
which fits in the requested region. -/
def HonestRead {ρ : Type} (read : Reader ρ) : Prop :=
  ∀ st reg, 0 ≤ ((read st reg).1).n ∧ ((read st reg).1).n ≤ (reg : Int) ∧
    (((read st reg).1).data.length : Int) = ((read st reg).1).n

/-- Well-formed buffer geometry with comfortably bounded sizes. -/
def SaneGeo {ρ : Type} (s : Protoscan ρ) : Prop :=
  0 ≤ s.start ∧ s.start ≤ s.«end» ∧ s.«end» ≤ (s.Buffer.length : Int) ∧
  (s.Buffer.length : Int) ≤ 2 ^ 61 ∧ 1 ≤ s.MaxBuffer ∧ s.MaxBuffer ≤ 2 ^ 61 ∧
  0 ≤ s.empties ∧ s.empties ≤ 1001

/-- The simulation relation between the abstract window machine and the
buffer-based engine state. -/
def SimRel (a : AbsScan) (s : Protoscan (List UInt8)) : Prop :=
  s.window = a.window ∧ s.rst = a.rest ∧ s.MaxBuffer = a.maxB ∧
  s.Tokens = a.Tokens ∧ s.Indexes = a.Indexes ∧ s.Gaps = a.Gaps ∧
  s.err = a.err ∧ s.empties = a.empties ∧
  0 ≤ s.start ∧ s.start ≤ s.«end» ∧ s.«end» ≤ (s.Buffer.length : Int) ∧
  (s.Buffer.length : Int) ≤ a.maxB ∧ 1 ≤ a.maxB ∧ a.maxB ≤ 2 ^ 61 ∧
  0 ≤ s.empties ∧ s.empties ≤ 1001

/-! ## Concrete scenarios used by counterexamples, bug exhibits and
witnesses -/

/-- A deterministic callback that asks for data on an empty window, reports
a genuine error at end of input, and otherwise delivers a final token via
the sentinel.  Used to show what `Scan` does after it has returned false. -/
def flipSplit : SplitFunc := fun d f =>
  if d = [] then ⟨1, 0, [], [], [], none⟩
  else if f then ⟨0, 0, [], [], [], some (ErrVal.other 0)⟩
  else ⟨0, 0, [116], [1], [], some ErrVal.FinalToken⟩

/-- A reader delivering one byte together with `io.EOF`, then EOF forever. -/
def oneByteEOFRead : Reader Nat := fun k _ =>
  if k = 0 then (⟨1, [97], some ErrVal.EOF⟩, 1) else (⟨0, [], some ErrVal.EOF⟩, k + 1)

/-- Fresh scanner for the `flipSplit` scenario. -/
def flipS0 : Protoscan Nat := initScanner [] 0 0

/-- The state after the first `Scan` call of the `flipSplit` scenario. -/
def flipS1 : Protoscan Nat :=
  match Protoscan.Scan flipSplit oneByteEOFRead 5 5 flipS0 with
  | some p => p.2
  | none => flipS0

/-- A callback that requests one byte on an empty window and then consumes
the whole window as one token. -/
def echoSplit : SplitFunc := fun d _ =>
  if d = [] then ⟨1, 0, [], [], [], none⟩
  else ⟨0, (d.length : Int), d, [(d.length : Int)], [], none⟩

/-- A misbehaving reader that writes one byte but reports a count of 5
(larger than the requested region), then EOF. -/
def overCountRead : Reader Nat := fun k _ =>
  if k = 0 then (⟨5, [65], none⟩, 1) else (⟨0, [], some ErrVal.EOF⟩, k + 1)

/-- Scanner with a client-preallocated 10-byte buffer. -/
def overCountS0 : Protoscan Nat := initScanner (List.replicate 10 0) 0 0

/-- A misbehaving reader that writes one byte but reports a count of 10. -/
def overCount10Read : Reader Nat := fun k _ =>
  if k = 0 then (⟨10, [65], none⟩, 1) else (⟨0, [], some ErrVal.EOF⟩, k + 1)

/-- Scanner with a 10-byte client buffer but `MaxBuffer = 3`. -/
def lowCapS0 : Protoscan Nat := initScanner (List.replicate 10 0) 3 0

/-- A chunking-sensitive deterministic callback: asks for two bytes on an
empty window, then consumes whatever window it next sees as one token. -/
def sizeProbeSplit : SplitFunc := fun d f =>
  if d = [] then (if f then ⟨0, 0, [], [], [], none⟩ else ⟨2, 0, [], [], [], none⟩)
  else ⟨0, (d.length : Int), d, [(d.length : Int)], [], none⟩

/-- A callback that always answers `(hint 0, advance 0, no error)`. -/
def nopSplit : SplitFunc := fun _ _ => ⟨0, 0, [], [], [], none⟩

/-- A scanner state whose `end` offset is 1 (one byte already buffered),
used to exhibit the dead overflow guard in `hint`. -/
def oneBufferedS : Protoscan Unit :=
  { initScanner [0] 65536 () with «end» := 1 }

/-- The bytes of the input `"1,2,3,"`. -/
def commaInput : List UInt8 := [49, 44, 50, 44, 51, 44]

/-- Fresh scanner reading `"1,2,3,"` through the honest maximal reader. -/
def commaS0 : Protoscan (List UInt8) := initScanner [] 65536 commaInput

/-- The state after the first `Scan` call on `commaS0`. -/
def commaS1 : Protoscan (List UInt8) :=
  match Protoscan.Scan commaSplit fullRead 20 10 commaS0 with
  | some p => p.2
  | none => commaS0

/-- Fresh scanner reading the single byte `97` through the honest maximal
reader, with the default cap. -/
def byteS0 : Protoscan (List UInt8) := initScanner [] 65536 [97]

/-- The state after the first `Scan` call on `byteS0` with `ScanBytes`. -/
def byteS1 : Protoscan (List UInt8) :=
  match Protoscan.Scan ScanBytes fullRead 10 5 byteS0 with
  | some p => p.2
  | none => byteS0

/-! ## Basic lemmas -/

theorem w64_eq {x : Int} (h1 : -2 ^ 63 ≤ x) (h2 : x < 2 ^ 63) : w64 x = x := by
  unfold w64
  rw [Int.emod_eq_of_lt (by omega) (by omega)]
  omega

theorem listWrite_length (B : List UInt8) (off : Nat) (d : List UInt8) :
    (listWrite B off d).length = B.length := by
  simp [listWrite]
  omega

@[simp] theorem setErr_Buffer {ρ : Type} (s : Protoscan ρ) (e : ErrVal) :
    (s.setErr e).Buffer = s.Buffer := by
  unfold Protoscan.setErr; split <;> rfl

@[simp] theorem setErr_MaxBuffer {ρ : Type} (s : Protoscan ρ) (e : ErrVal) :
    (s.setErr e).MaxBuffer = s.MaxBuffer := by
  unfold Protoscan.setErr; split <;> rfl

@[simp] theorem setErr_Tokens {ρ : Type} (s : Protoscan ρ) (e : ErrVal) :
    (s.setErr e).Tokens = s.Tokens := by
  unfold Protoscan.setErr; split <;> rfl

@[simp] theorem setErr_Indexes {ρ : Type} (s : Protoscan ρ) (e : ErrVal) :
    (s.setErr e).Indexes = s.Indexes := by
  unfold Protoscan.setErr; split <;> rfl

@[simp] theorem setErr_Gaps {ρ : Type} (s : Protoscan ρ) (e : ErrVal) :
    (s.setErr e).Gaps = s.Gaps := by
  unfold Protoscan.setErr; split <;> rfl

@[simp] theorem setErr_start {ρ : Type} (s : Protoscan ρ) (e : ErrVal) :
    (s.setErr e).start = s.start := by
  unfold Protoscan.setErr; split <;> rfl

@[simp] theorem setErr_end {ρ : Type} (s : Protoscan ρ) (e : ErrVal) :
    (s.setErr e).«end» = s.«end» := by
  unfold Protoscan.setErr; split <;> rfl

@[simp] theorem setErr_empties {ρ : Type} (s : Protoscan ρ) (e : ErrVal) :
    (s.setErr e).empties = s.empties := by
  unfold Protoscan.setErr; split <;> rfl

@[simp] theorem setErr_rst {ρ : Type} (s : Protoscan ρ) (e : ErrVal) :
    (s.setErr e).rst = s.rst := by
  unfold Protoscan.setErr; split <;> rfl

theorem setErr_err {ρ : Type} (s : Protoscan ρ) (e : ErrVal) :
    (s.setErr e).err =
      if s.err = none ∨ s.err = some ErrVal.EOF then some e else s.err := by
  unfold Protoscan.setErr; split <;> rfl

theorem setErr_err_ne_none {ρ : Type} (s : Protoscan ρ) (e : ErrVal)
    (h : s.err ≠ none) : (s.setErr e).err ≠ none := by
  rw [setErr_err]; split <;> simp_all

@[simp] theorem compact_MaxBuffer {ρ : Type} (s : Protoscan ρ) :
    (compact s).MaxBuffer = s.MaxBuffer := rfl

@[simp] theorem compact_Tokens {ρ : Type} (s : Protoscan ρ) :
    (compact s).Tokens = s.Tokens := rfl

@[simp] theorem compact_Indexes {ρ : Type} (s : Protoscan ρ) :
    (compact s).Indexes = s.Indexes := rfl

@[simp] theorem compact_Gaps {ρ : Type} (s : Protoscan ρ) :
    (compact s).Gaps = s.Gaps := rfl

@[simp] theorem compact_err {ρ : Type} (s : Protoscan ρ) :
    (compact s).err = s.err := rfl

@[simp] theorem compact_empties {ρ : Type} (s : Protoscan ρ) :
    (compact s).empties = s.empties := rfl

@[simp] theorem compact_rst {ρ : Type} (s : Protoscan ρ) :
    (compact s).rst = s.rst := rfl

@[simp] theorem compact_start {ρ : Type} (s : Protoscan ρ) :
    (compact s).start = 0 := rfl

@[simp] theorem compact_length {ρ : Type} (s : Protoscan ρ)
    (h : s.window.length ≤ s.Buffer.length) :
    (compact s).Buffer.length = s.Buffer.length := by
  simp [compact]
  omega

theorem window_length_le {ρ : Type} (s : Protoscan ρ) :
    s.window.length ≤ s.Buffer.length := by
  simp [Protoscan.window]

/-- The read loop exits immediately once `end` has reached `claim`. -/
theorem readLoop_noop {ρ : Type} (read : Reader ρ) (claim : Int) (rf : Nat)
    (s : Protoscan ρ) (h : ¬ s.«end» < claim) : readLoop read claim rf s = some s := by
  cases rf <;> (unfold readLoop; rw [if_neg h])

theorem readLoop_pres {ρ : Type} (read : Reader ρ) (claim : Int) :
    ∀ (rf : Nat) (s s' : Protoscan ρ), readLoop read claim rf s = some s' →
      s'.MaxBuffer = s.MaxBuffer ∧ s'.start = s.start ∧
      s'.Buffer.length = s.Buffer.length ∧ s'.Tokens = s.Tokens ∧
      s'.Indexes = s.Indexes ∧ s'.Gaps = s.Gaps := by
  intro rf
  induction rf with
  | zero =>
    intro s s' h
    rw [readLoop] at h
    split at h
    · exact absurd h (by simp)
    · cases h; simp
  | succ rf ih =>
    intro s s' h
    rw [readLoop] at h
    split at h
    case isTrue hlt =>
      simp only at h
      split at h
      · cases h
        simp [listWrite_length]
      · split at h
        · cases h
          simp [listWrite_length]
        · split at h
          · cases h
            simp [listWrite_length]
          · split at h
            · cases h
              simp [listWrite_length]
            · have := ih _ _ h
              simp only [listWrite_length] at this ⊢
              simp_all
    case isFalse =>
      cases h; simp


@[simp] theorem stepTrunc_proj {ρ : Type} (o : SplitOut) (s : Protoscan ρ) :
    (stepTrunc o s).Buffer = s.Buffer ∧ (stepTrunc o s).MaxBuffer = s.MaxBuffer ∧
    (stepTrunc o s).err = s.err ∧ (stepTrunc o s).start = s.start ∧
    (stepTrunc o s).«end» = s.«end» ∧ (stepTrunc o s).empties = s.empties ∧
    (stepTrunc o s).rst = s.rst ∧ (stepTrunc o s).Tokens = o.tokens ∧
    (stepTrunc o s).Indexes = o.indexes ∧ (stepTrunc o s).Gaps = o.gaps := by
  simp [stepTrunc]

@[simp] theorem stepStart_proj {ρ : Type} (n : Int) (s : Protoscan ρ) :
    (stepStart n s).Buffer = s.Buffer ∧ (stepStart n s).MaxBuffer = s.MaxBuffer ∧
    (stepStart n s).err = s.err ∧ (stepStart n s).«end» = s.«end» ∧
    (stepStart n s).empties = s.empties ∧ (stepStart n s).rst = s.rst ∧
    (stepStart n s).Tokens = s.Tokens ∧ (stepStart n s).Indexes = s.Indexes ∧
    (stepStart n s).Gaps = s.Gaps ∧ (stepStart n s).start = w64 (s.start + n) := by
  simp [stepStart]

@[simp] theorem stepZero_proj {ρ : Type} (s : Protoscan ρ) :
    (stepZero s).Buffer = s.Buffer ∧ (stepZero s).MaxBuffer = s.MaxBuffer ∧
    (stepZero s).err = s.err ∧ (stepZero s).start = s.start ∧
    (stepZero s).«end» = s.«end» ∧ (stepZero s).rst = s.rst ∧
    (stepZero s).Tokens = s.Tokens ∧ (stepZero s).Indexes = s.Indexes ∧
    (stepZero s).Gaps = s.Gaps ∧ (stepZero s).empties = 0 := by
  simp [stepZero]

@[simp] theorem stepIdle_proj {ρ : Type} (s : Protoscan ρ) :
    (stepIdle s).Buffer = s.Buffer ∧ (stepIdle s).MaxBuffer = s.MaxBuffer ∧
    (stepIdle s).err = s.err ∧ (stepIdle s).start = s.start ∧
    (stepIdle s).«end» = s.«end» ∧ (stepIdle s).rst = s.rst ∧
    (stepIdle s).Tokens = s.Tokens ∧ (stepIdle s).Indexes = s.Indexes ∧
    (stepIdle s).Gaps = s.Gaps ∧ (stepIdle s).empties = w64 (s.empties + 1) := by
  simp [stepIdle]

@[simp] theorem stepCompact_proj {ρ : Type} (s : Protoscan ρ) :
    (stepCompact s).MaxBuffer = s.MaxBuffer ∧ (stepCompact s).err = s.err ∧
    (stepCompact s).empties = s.empties ∧ (stepCompact s).rst = s.rst ∧
    (stepCompact s).Tokens = s.Tokens ∧ (stepCompact s).Indexes = s.Indexes ∧
    (stepCompact s).Gaps = s.Gaps := by
  unfold stepCompact
  split <;> simp

@[simp] theorem stepGrow_proj {ρ : Type} (claim : Int) (s : Protoscan ρ) :
    (stepGrow claim s).MaxBuffer = s.MaxBuffer ∧ (stepGrow claim s).err = s.err ∧
    (stepGrow claim s).empties = s.empties ∧ (stepGrow claim s).rst = s.rst ∧
    (stepGrow claim s).Tokens = s.Tokens ∧ (stepGrow claim s).Indexes = s.Indexes ∧
    (stepGrow claim s).Gaps = s.Gaps ∧ (stepGrow claim s).start = s.start ∧
    (stepGrow claim s).«end» = s.«end» := by
  unfold stepGrow
  split <;> simp

theorem scanTail_pres_MaxBuffer {ρ : Type} (read : Reader ρ) (rf : Nat) (n : Int)
    (s : Protoscan ρ) :
    (∀ b s', scanTail read rf n s = IterOut.done b s' → s'.MaxBuffer = s.MaxBuffer) ∧
    (∀ s', scanTail read rf n s = IterOut.cont s' → s'.MaxBuffer = s.MaxBuffer) := by
  constructor
  · intro b s'
    simp only [scanTail]
    split
    · intro h; cases h; simp
    · split
      · intro h; cases h
      · intro h; cases h
  · intro s'
    simp only [scanTail]
    split
    · intro h; cases h
    · split
      · intro h; cases h
      · rename_i hrl
        intro h; cases h
        have := readLoop_pres _ _ _ _ _ hrl
        simp_all

theorem scanIter_pres_MaxBuffer {ρ : Type} (split : SplitFunc) (read : Reader ρ) (rf : Nat)
    (s : Protoscan ρ) :
    (∀ b s', scanIter split read rf s = IterOut.done b s' → s'.MaxBuffer = s.MaxBuffer) ∧
    (∀ s', scanIter split read rf s = IterOut.cont s' → s'.MaxBuffer = s.MaxBuffer) := by
  constructor
  · intro b s'
    simp only [scanIter]
    split
    · intro h; cases h; simp
    · split
      · intro h; cases h; simp
      · split
        · intro h; cases h; simp
        · split
          · intro h; cases h; simp
          · split
            · intro h
              have := (scanTail_pres_MaxBuffer _ _ _ _).1 _ _ h
              simp_all
            · split
              · intro h; cases h; simp
              · intro h
                have := (scanTail_pres_MaxBuffer _ _ _ _).1 _ _ h
                simp_all
  · intro s'
    simp only [scanIter]
    split
    · intro h; cases h
    · split
      · intro h; cases h
      · split
        · intro h; cases h
        · split
          · intro h; cases h
          · split
            · intro h
              have := (scanTail_pres_MaxBuffer _ _ _ _).2 _ h
              simp_all
            · split
              · intro h; cases h
              · intro h
                have := (scanTail_pres_MaxBuffer _ _ _ _).2 _ h
                simp_all

theorem setErr_ne_none {ρ : Type} (s : Protoscan ρ) (e : ErrVal) :
    (s.setErr e).err ≠ none := by
  rw [setErr_err]
  split <;> simp_all

theorem scanLoop_pres_MaxBuffer {ρ : Type} (split : SplitFunc) (read : Reader ρ) (rf : Nat) :
    ∀ (fuel : Nat) (s : Protoscan ρ) (b : Bool) (s' : Protoscan ρ),
      scanLoop split read rf fuel s = some (b, s') → s'.MaxBuffer = s.MaxBuffer := by
  intro fuel
  induction fuel with
  | zero => intro s b s' h; exact absurd h (by simp [scanLoop])
  | succ fuel ih =>
    intro s b s' h
    rw [scanLoop] at h
    split at h
    · rename_i b' s'' hit
      cases h
      exact (scanIter_pres_MaxBuffer _ _ _ _).1 _ _ hit
    · rename_i s'' hit
      have h1 := ih _ _ _ h
      have h2 := (scanIter_pres_MaxBuffer _ _ _ _).2 _ hit
      omega
    · exact absurd h (by simp)

theorem Scan_result_MaxBuffer {ρ : Type} (split : SplitFunc) (read : Reader ρ)
    (fuel rf : Nat) (s : Protoscan ρ) (b : Bool) (s' : Protoscan ρ)
    (h : Protoscan.Scan split read fuel rf s = some (b, s')) : s'.MaxBuffer ≠ 0 := by
  unfold Protoscan.Scan at h
  by_cases hmb : s.MaxBuffer = 0 <;> simp only [hmb, if_true, if_false] at h
  · split at h
    · cases h; simp [maxBufferDefault]
    · have := scanLoop_pres_MaxBuffer _ _ _ _ _ _ _ h
      simp [this, maxBufferDefault]
  · split at h
    · cases h; simpa using hmb
    · have := scanLoop_pres_MaxBuffer _ _ _ _ _ _ _ h
      simp [this]
      exact hmb

theorem scanTail_done_false_err {ρ : Type} (read : Reader ρ) (rf : Nat) (n : Int)
    (s : Protoscan ρ) (b : Bool) (s' : Protoscan ρ)
    (h : scanTail read rf n s = IterOut.done b s') : s'.err ≠ none := by
  simp only [scanTail] at h
  split at h
  · cases h; exact setErr_ne_none _ _
  · split at h
    · cases h
    · cases h

theorem scanIter_done_false_err {ρ : Type} (split : SplitFunc) (read : Reader ρ) (rf : Nat)
    (s : Protoscan ρ) (s' : Protoscan ρ)
    (h : scanIter split read rf s = IterOut.done false s') : s'.err ≠ none := by
  simp only [scanIter] at h
  split at h
  · injection h with h1 h2
    subst h2
    exact setErr_ne_none _ _
  · split at h
    · cases h
      rename_i hne
      simpa using hne
    · split at h
      · cases h; exact setErr_ne_none _ _
      · split at h
        · cases h
        · split at h
          · exact scanTail_done_false_err _ _ _ _ _ _ h
          · split at h
            · cases h; exact setErr_ne_none _ _
            · exact scanTail_done_false_err _ _ _ _ _ _ h

theorem scanLoop_false_err {ρ : Type} (split : SplitFunc) (read : Reader ρ) (rf : Nat) :
    ∀ (fuel : Nat) (s : Protoscan ρ) (s' : Protoscan ρ),
      scanLoop split read rf fuel s = some (false, s') → s'.err ≠ none := by
  intro fuel
  induction fuel with
  | zero => intro s s' h; exact absurd h (by simp [scanLoop])
  | succ fuel ih =>
    intro s s' h
    rw [scanLoop] at h
    split at h
    · rename_i b' s'' hit
      cases h
      exact scanIter_done_false_err _ _ _ _ _ hit
    · exact ih _ _ h
    · exact absurd h (by simp)

theorem Scan_false_err {ρ : Type} (split : SplitFunc) (read : Reader ρ)
    (fuel rf : Nat) (s : Protoscan ρ) (s' : Protoscan ρ)
    (h : Protoscan.Scan split read fuel rf s = some (false, s')) : s'.err ≠ none := by
  simp only [Protoscan.Scan] at h
  split at h <;> split at h
  all_goals first
    | (rename_i hft
       cases h
       simp_all)
    | exact scanLoop_false_err _ _ _ _ _ _ h

/-- C9: the sticky error slot is first-write-wins: a genuine recorded error
(not `nil`, not `io.EOF`, not `FinalToken`) is never replaced by `setErr`,
and the only way `setErr` changes an already-recorded error is upgrading a
recorded `io.EOF` to the newly reported error. -/
theorem setErr_first_write_wins {ρ : Type} (s : Protoscan ρ) (e : ErrVal) :
    (s.err ≠ none → s.err ≠ some ErrVal.EOF → s.err ≠ some ErrVal.FinalToken →
      (s.setErr e).err = s.err) ∧
    (s.err ≠ none → (s.setErr e).err ≠ s.err →
      s.err = some ErrVal.EOF ∧ (s.setErr e).err = some e) := by
  constructor
  · intro h1 h2 _
    rw [setErr_err, if_neg]
    simp [h1, h2]
  · intro h1 h2
    rw [setErr_err] at h2 ⊢
    by_cases h : s.err = none ∨ s.err = some ErrVal.EOF
    · rcases h with h | h
      · exact absurd h h1
      · simp [h]
    · simp [h] at h2

/-- Witness for C9 at a concrete state: a recorded `TooLong` is not
replaced by a later `BadReadCount`. -/
theorem setErr_first_write_wins_witness :
    (({ initScanner [] 1 () with err := some ErrVal.TooLong } :
        Protoscan Unit).setErr ErrVal.BadReadCount).err = some ErrVal.TooLong :=
  (setErr_first_write_wins { initScanner [] 1 () with err := some ErrVal.TooLong }
    ErrVal.BadReadCount).1 (by decide) (by decide) (by decide)

/-- C5 (code-bug exhibit): with one byte buffered (`end = 1`) and hint
`2^63 - 1`, the Go sum `end + hint` wraps to `-2^63`, so both guards of
`hint` are false and no `TooLong` is recorded, although the true sum
exceeds `MaxBuffer` (= 65536); the `end+n > maxInt` guard is dead code.
The comment in the source ("Guarantee no buffer overflow") together with
the dead guard shows the intent the claim states. -/
theorem hint_overflow_guard_dead :
    Protoscan.hint oneBufferedS (2 ^ 63 - 1) = none ∧
    oneBufferedS.«end» + (2 ^ 63 - 1) > oneBufferedS.MaxBuffer ∧
    w64 (oneBufferedS.«end» + (2 ^ 63 - 1)) = -2 ^ 63 ∧
    (∀ x : Int, ¬ w64 x > maxInt) := by
  refine ⟨by decide, by decide, by decide, ?_⟩
  intro x
  unfold w64 maxInt
  have h1 : 0 ≤ (x + 2 ^ 63) % 2 ^ 64 := Int.emod_nonneg _ (by decide)
  have h2 : (x + 2 ^ 63) % 2 ^ 64 < 2 ^ 64 := Int.emod_lt_of_pos _ (by decide)
  omega

theorem scanIter_sticky_someErr {ρ : Type} (split : SplitFunc) (read : Reader ρ) (rf : Nat)
    (s : Protoscan ρ) (e : ErrVal)
    (he : (split s.window (s.err = some ErrVal.EOF)).err = some e) :
    scanIter split read rf s = IterOut.done (e = ErrVal.FinalToken)
      ((stepTrunc (split s.window (s.err = some ErrVal.EOF)) s).setErr e) := by
  simp only [scanIter]
  split
  · rename_i e' he'
    rw [he] at he'
    injection he' with h1
    subst h1
    rfl
  · rename_i he'
    rw [he] at he'
    cases he'

theorem scanIter_sticky_noErr {ρ : Type} (split : SplitFunc) (read : Reader ρ) (rf : Nat)
    (s : Protoscan ρ) (hs : s.err ≠ none)
    (he : (split s.window (s.err = some ErrVal.EOF)).err = none) :
    scanIter split read rf s =
      IterOut.done false (stepTrunc (split s.window (s.err = some ErrVal.EOF)) s) := by
  simp only [scanIter]
  split
  · rename_i e' he'
    rw [he] at he'
    cases he'
  · have hc : (stepTrunc (split s.window (s.err = some ErrVal.EOF)) s).err ≠ none := by
      simpa [stepTrunc] using hs
    rw [if_pos hc]


/-- C1 (amended): after `Scan` has returned false, every subsequent call
leaves `Buffer`, `start`, `end`, `empties` and the reader untouched and
does not read, but it does invoke the split callback once more (unless the
sticky error is the `FinalToken` sentinel, including every call after a
genuine error), and it returns true rather than false exactly when that
renewed callback invocation returns the `FinalToken` sentinel; the sticky
error is unchanged except that a recorded `io.EOF` may be upgraded to an
error newly reported by the callback. -/
theorem Scan_after_false {ρ : Type} (split : SplitFunc) (read : Reader ρ) (fuel rf : Nat)
    (s s₁ : Protoscan ρ) (h : Protoscan.Scan split read fuel rf s = some (false, s₁))
    (fuel₂ rf₂ : Nat) :
    ∃ b s₂, Protoscan.Scan split read (fuel₂ + 1) rf₂ s₁ = some (b, s₂) ∧
      s₂.Buffer = s₁.Buffer ∧ s₂.start = s₁.start ∧ s₂.«end» = s₁.«end» ∧
      s₂.empties = s₁.empties ∧ s₂.rst = s₁.rst ∧
      (b = true ↔ s₁.err ≠ some ErrVal.FinalToken ∧
        (split s₁.window (s₁.err = some ErrVal.EOF)).err = some ErrVal.FinalToken) ∧
      (s₂.err = s₁.err ∨
        (s₁.err = some ErrVal.EOF ∧ s₂.err = (split s₁.window true).err)) := by
  have hne : s₁.err ≠ none := Scan_false_err _ _ _ _ _ _ h
  have hmb : s₁.MaxBuffer ≠ 0 := Scan_result_MaxBuffer _ _ _ _ _ _ _ h
  by_cases hft : s₁.err = some ErrVal.FinalToken
  · refine ⟨false, s₁, ?_, rfl, rfl, rfl, rfl, rfl, by simp [hft], Or.inl rfl⟩
    simp only [Protoscan.Scan]
    rw [if_neg hmb, if_pos hft]
  · have hscan : Protoscan.Scan split read (fuel₂ + 1) rf₂ s₁ =
        scanLoop split read rf₂ (fuel₂ + 1) s₁ := by
      simp only [Protoscan.Scan]
      rw [if_neg hmb, if_neg hft]
    cases he : (split s₁.window (s₁.err = some ErrVal.EOF)).err with
    | some e =>
      have hit := scanIter_sticky_someErr split read rf₂ s₁ e he
      refine ⟨decide (e = ErrVal.FinalToken),
        (stepTrunc (split s₁.window (s₁.err = some ErrVal.EOF)) s₁).setErr e, ?_,
        by simp, by simp, by simp, by simp, by simp, ?_, ?_⟩
      · rw [hscan, scanLoop, hit]
      · simp only [decide_eq_true_eq]
        constructor
        · intro hef
          exact ⟨hft, by rw [hef]⟩
        · intro ⟨_, hef⟩
          injection hef with h1
      · rw [setErr_err]
        by_cases hEOF : s₁.err = some ErrVal.EOF
        · refine Or.inr ⟨hEOF, ?_⟩
          rw [if_pos (Or.inr (by simpa [stepTrunc] using hEOF))]
          rw [hEOF] at he
          simpa using he.symm
        · refine Or.inl ?_
          rw [if_neg]
          · simp [stepTrunc]
          · simp [stepTrunc, hne, hEOF]
    | none =>
      have hit := scanIter_sticky_noErr split read rf₂ s₁ hne he
      refine ⟨false, stepTrunc (split s₁.window (s₁.err = some ErrVal.EOF)) s₁, ?_,
        by simp, by simp, by simp, by simp, by simp, ?_, Or.inl (by simp [stepTrunc])⟩
      · rw [hscan, scanLoop, hit]
      · simp only [Bool.false_eq_true, false_iff]
        intro ⟨_, hef⟩
        exact Option.noConfusion hef

/-- C1 (counterexample): with the deterministic callback `flipSplit` and
reader `oneByteEOFRead`, the first `Scan` returns false recording the
genuine error `other 0`, yet the very next `Scan` call returns true — the
callback is invoked again and its `FinalToken` answer is passed through —
refuting "once Scan has returned false, every subsequent call also returns
false and does not invoke the split callback". -/
theorem Scan_after_false_counterexample :
    (Protoscan.Scan flipSplit oneByteEOFRead 5 5 flipS0).map (fun p => (p.1, p.2.err)) =
      some (false, some (ErrVal.other 0)) ∧
    (Protoscan.Scan flipSplit oneByteEOFRead 5 5 flipS1).map (fun p => (p.1, p.2.err)) =
      some (true, some (ErrVal.other 0)) := by
  constructor <;> rfl

/-- Witness for C1 (amended) at the `flipSplit` scenario. -/
theorem Scan_after_false_witness :
    ∃ b s₂, Protoscan.Scan flipSplit oneByteEOFRead 1 0 flipS1 = some (b, s₂) ∧
      s₂.Buffer = flipS1.Buffer ∧ s₂.start = flipS1.start ∧ s₂.«end» = flipS1.«end» ∧
      s₂.empties = flipS1.empties ∧ s₂.rst = flipS1.rst ∧
      (b = true ↔ flipS1.err ≠ some ErrVal.FinalToken ∧
        (flipSplit flipS1.window (flipS1.err = some ErrVal.EOF)).err = some ErrVal.FinalToken) ∧
      (s₂.err = flipS1.err ∨
        (flipS1.err = some ErrVal.EOF ∧ s₂.err = (flipSplit flipS1.window true).err)) :=
  Scan_after_false flipSplit oneByteEOFRead 5 5 flipS0 flipS1 (by rfl) 0 0


/-- C3: if the split callback returns the `FinalToken` sentinel while no
genuine error has been recorded (the sticky slot holds `nil` or `io.EOF`),
that `Scan` call returns true with the callback's token available in
`Tokens`, the sticky error becomes the sentinel so that every later `Scan`
call returns false without changing the state, and `Err` reports no
error. -/
theorem Scan_finalToken_clean {ρ : Type} (split : SplitFunc) (read : Reader ρ)
    (fuel rf : Nat) (s : Protoscan ρ)
    (hben : s.err = none ∨ s.err = some ErrVal.EOF)
    (hsp : (split s.window (s.err = some ErrVal.EOF)).err = some ErrVal.FinalToken) :
    ∃ s', Protoscan.Scan split read (fuel + 1) rf s = some (true, s') ∧
      s'.err = some ErrVal.FinalToken ∧ s'.Err = none ∧
      s'.Tokens = (split s.window (s.err = some ErrVal.EOF)).tokens ∧
      ∀ fuel₂ rf₂, Protoscan.Scan split read fuel₂ rf₂ s' = some (false, s') := by
  have hnft : s.err ≠ some ErrVal.FinalToken := by
    rcases hben with h | h <;> simp [h]
  set s0 : Protoscan ρ :=
    if s.MaxBuffer = 0 then { s with MaxBuffer := maxBufferDefault } else s with hs0
  have h0err : s0.err = s.err := by
    rw [hs0]; split <;> rfl
  have h0win : s0.window = s.window := by
    rw [hs0]; split <;> simp [Protoscan.window]
  have h0mb : s0.MaxBuffer ≠ 0 := by
    rw [hs0]; split <;> simp_all [maxBufferDefault]
  have hscan : Protoscan.Scan split read (fuel + 1) rf s =
      scanLoop split read rf (fuel + 1) s0 := by
    simp only [Protoscan.Scan]
    rw [← hs0, if_neg (by rw [h0err]; exact hnft)]
  have he0 : (split s0.window (s0.err = some ErrVal.EOF)).err = some ErrVal.FinalToken := by
    rw [h0err, h0win]; exact hsp
  have hit := scanIter_sticky_someErr split read rf s0 ErrVal.FinalToken he0
  refine ⟨(stepTrunc (split s0.window (s0.err = some ErrVal.EOF)) s0).setErr ErrVal.FinalToken,
    ?_, ?_, ?_, ?_, ?_⟩
  · rw [hscan, scanLoop, hit]
    simp
  · rw [setErr_err, if_pos (by rw [stepTrunc] ; exact (by simpa using (h0err ▸ hben)))]
  · rw [Protoscan.Err, if_pos]
    rw [setErr_err]
    right
    split <;> simp_all [stepTrunc]
  · rw [setErr_Tokens]
    simp [stepTrunc, h0err, h0win]
  · intro fuel₂ rf₂
    have hmb' : ((stepTrunc (split s0.window (s0.err = some ErrVal.EOF)) s0).setErr
        ErrVal.FinalToken).MaxBuffer ≠ 0 := by
      simpa [stepTrunc] using h0mb
    have herr' : ((stepTrunc (split s0.window (s0.err = some ErrVal.EOF)) s0).setErr
        ErrVal.FinalToken).err = some ErrVal.FinalToken := by
      rw [setErr_err, if_pos]
      simp [stepTrunc, h0err]
      rcases hben with h | h <;> simp [h]
    simp only [Protoscan.Scan]
    rw [if_neg hmb', if_pos herr']

/-- Witness for C3: `flipSplit` on a scanner holding the single byte `97`
returns the sentinel with token `[116]`. -/
theorem Scan_finalToken_clean_witness :
    ∃ s', Protoscan.Scan flipSplit zeroRead 1 0
        ({ initScanner [97] 7 () with «end» := 1 }) = some (true, s') ∧
      s'.err = some ErrVal.FinalToken ∧ s'.Err = none ∧
      s'.Tokens = (flipSplit ({ initScanner [97] 7 () with «end» := 1 } :
          Protoscan Unit).window
        (({ initScanner [97] 7 () with «end» := 1 } : Protoscan Unit).err =
          some ErrVal.EOF)).tokens ∧
      ∀ fuel₂ rf₂, Protoscan.Scan flipSplit zeroRead fuel₂ rf₂ s' = some (false, s') :=
  Scan_finalToken_clean flipSplit zeroRead 0 0 { initScanner [97] 7 () with «end» := 1 }
    (Or.inl rfl) (by decide)

theorem scanTail_done_proj {ρ : Type} (read : Reader ρ) (rf : Nat) (n : Int)
    (x : Protoscan ρ) (b : Bool) (s' : Protoscan ρ)
    (h : scanTail read rf n x = IterOut.done b s') :
    s'.Tokens = x.Tokens ∧ s'.Indexes = x.Indexes ∧ s'.Gaps = x.Gaps ∧ b = false := by
  simp only [scanTail] at h
  split at h
  · cases h; simp
  · split at h <;> cases h

theorem scanIter_done_trunc {ρ : Type} (split : SplitFunc) (read : Reader ρ) (rf : Nat)
    (s : Protoscan ρ) (b : Bool) (s' : Protoscan ρ)
    (h : scanIter split read rf s = IterOut.done b s') :
    s'.Tokens = (split s.window (s.err = some ErrVal.EOF)).tokens ∧
    s'.Indexes = (split s.window (s.err = some ErrVal.EOF)).indexes ∧
    s'.Gaps = (split s.window (s.err = some ErrVal.EOF)).gaps := by
  simp only [scanIter] at h
  split at h
  · injection h with h1 h2
    subst h2
    simp
  · split at h
    · cases h; simp
    · split at h
      · cases h; simp
      · split at h
        · cases h; simp
        · split at h
          · have := scanTail_done_proj _ _ _ _ _ _ h
            simp_all
          · split at h
            · cases h; simp
            · have := scanTail_done_proj _ _ _ _ _ _ h
              simp_all

theorem scanLoop_true_trunc {ρ : Type} (split : SplitFunc) (read : Reader ρ) (rf : Nat) :
    ∀ (fuel : Nat) (s : Protoscan ρ) (b : Bool) (s' : Protoscan ρ),
      scanLoop split read rf fuel s = some (b, s') →
      ∃ w f, s'.Tokens = (split w f).tokens ∧ s'.Indexes = (split w f).indexes ∧
        s'.Gaps = (split w f).gaps := by
  intro fuel
  induction fuel with
  | zero => intro s b s' h; exact absurd h (by simp [scanLoop])
  | succ fuel ih =>
    intro s b s' h
    rw [scanLoop] at h
    split at h
    · rename_i b' s'' hit
      cases h
      exact ⟨_, _, scanIter_done_trunc _ _ _ _ _ _ hit⟩
    · exact ih _ _ _ h
    · exact absurd h (by simp)

/-- C10: the three output containers are truncated to length zero at the
start of every loop iteration before the callback runs, so whenever `Scan`
returns true, `Tokens`, `Indexes` and `Gaps` hold exactly what the final
callback invocation appended (on some window `w` and EOF flag `f`); bytes
appended during earlier iterations of the same call are discarded. -/
theorem Scan_tokens_from_final_callback {ρ : Type} (split : SplitFunc) (read : Reader ρ)
    (fuel rf : Nat) (s : Protoscan ρ) (s' : Protoscan ρ)
    (h : Protoscan.Scan split read fuel rf s = some (true, s')) :
    ∃ w f, s'.Tokens = (split w f).tokens ∧ s'.Indexes = (split w f).indexes ∧
      s'.Gaps = (split w f).gaps := by
  simp only [Protoscan.Scan] at h
  split at h <;> split at h
  all_goals first
    | cases h
    | exact scanLoop_true_trunc _ _ _ _ _ _ _ h

set_option maxHeartbeats 1600000 in
/-- Witness for C10: the first `Scan` of the `"1,2,3,"` scenario. -/
theorem Scan_tokens_from_final_callback_witness :
    ∃ w f, commaS1.Tokens = (commaSplit w f).tokens ∧
      commaS1.Indexes = (commaSplit w f).indexes ∧
      commaS1.Gaps = (commaSplit w f).gaps :=
  Scan_tokens_from_final_callback commaSplit fullRead 20 10 commaS0 commaS1 (by decide)

theorem window_length {ρ : Type} (s : Protoscan ρ) (h1 : 0 ≤ s.start)
    (h2 : s.start ≤ s.«end») (h3 : s.«end» ≤ (s.Buffer.length : Int)) :
    (s.window.length : Int) = s.«end» - s.start := by
  simp [Protoscan.window]
  omega

theorem compact_end {ρ : Type} (s : Protoscan ρ) (h1 : 0 ≤ s.start)
    (h2 : s.start ≤ s.«end») (h4 : s.«end» ≤ 2 ^ 61) :
    (compact s).«end» = s.«end» - s.start := by
  show w64 (s.«end» - s.start) = s.«end» - s.start
  exact w64_eq (by omega) (by omega)

theorem compact_buffer_length {ρ : Type} (s : Protoscan ρ) :
    (compact s).Buffer.length = s.Buffer.length := by
  have := window_length_le s
  simp [compact]
  omega

theorem compact_window {ρ : Type} (s : Protoscan ρ) (h1 : 0 ≤ s.start)
    (h2 : s.start ≤ s.«end») (h3 : s.«end» ≤ (s.Buffer.length : Int))
    (h4 : s.«end» ≤ 2 ^ 61) :
    (compact s).window = s.window := by
  have hw := window_length s h1 h2 h3
  have he := compact_end s h1 h2 h4
  have hlen : s.window.length = (s.«end» - s.start).toNat := by omega
  show ((compact s).Buffer.take (compact s).«end».toNat).drop (compact s).start.toNat =
    s.window
  rw [he, compact_start]
  show ((s.window ++ s.Buffer.drop s.window.length).take (s.«end» - s.start).toNat).drop 0 =
    s.window
  rw [List.drop_zero, List.take_append_eq_append_take, List.take_of_length_le (by omega),
    hlen]
  simp

theorem scanTail_hint_zero {ρ : Type} (read : Reader ρ) (rf : Nat) (x : Protoscan ρ)
    (h1 : 0 ≤ x.start) (h2 : x.start ≤ x.«end») (h3 : x.«end» ≤ (x.Buffer.length : Int))
    (h4 : (x.Buffer.length : Int) ≤ 2 ^ 61) (h5 : x.«end» ≤ x.MaxBuffer)
    (h6 : x.MaxBuffer ≤ 2 ^ 61) :
    ∃ x', scanTail read rf 0 x = IterOut.cont x' ∧ x'.err = x.err ∧
      x'.empties = x.empties ∧ x'.window = x.window ∧ 0 ≤ x'.start ∧
      x'.start ≤ x'.«end» ∧ x'.«end» ≤ (x'.Buffer.length : Int) ∧
      (x'.Buffer.length : Int) ≤ 2 ^ 61 ∧ x'.«end» ≤ x'.MaxBuffer ∧
      x'.MaxBuffer = x.MaxBuffer ∧ x'.rst = x.rst ∧ x'.Tokens = x.Tokens ∧
      x'.Indexes = x.Indexes ∧ x'.Gaps = x.Gaps := by
  have hy : ∃ y, stepCompact x = y ∧ y.err = x.err ∧ y.empties = x.empties ∧
      y.window = x.window ∧ 0 ≤ y.start ∧ y.start ≤ y.«end» ∧
      y.«end» ≤ (y.Buffer.length : Int) ∧ (y.Buffer.length : Int) ≤ 2 ^ 61 ∧
      y.«end» ≤ y.MaxBuffer ∧ y.MaxBuffer = x.MaxBuffer ∧ y.rst = x.rst ∧
      y.Tokens = x.Tokens ∧ y.Indexes = x.Indexes ∧ y.Gaps = x.Gaps := by
    unfold stepCompact
    split
    · have hce := compact_end x h1 h2 (by omega)
      have hcl := compact_buffer_length (s := x)
      refine ⟨compact x, rfl, by simp, by simp,
        compact_window x h1 h2 h3 (by omega),
        by simp,
        by simp only [compact_start, hce]; omega,
        by simp only [hce, hcl]; omega,
        by simp only [hcl]; omega,
        by simp only [hce, compact_MaxBuffer]; omega,
        by simp, by simp, by simp, by simp, by simp⟩
    · exact ⟨x, rfl, rfl, rfl, rfl, h1, h2, h3, h4, h5, rfl, rfl, rfl, rfl, rfl⟩
  obtain ⟨y, hyeq, hbund⟩ := hy
  have hyg : 0 ≤ y.«end» ∧ y.«end» ≤ 2 ^ 61 := by
    obtain ⟨_, _, _, a5, a6, a7, a8, _⟩ := hbund
    constructor <;> omega
  have hhint : y.hint 0 = none := by
    unfold Protoscan.hint
    rw [if_neg (by omega), if_neg]
    rw [not_or]
    have hw : w64 (y.«end» + 0) = y.«end» := by
      have : y.«end» + 0 = y.«end» := by omega
      rw [this]
      exact w64_eq (by omega) (by omega)
    rw [hw]
    obtain ⟨_, _, _, _, _, _, _, a8, _⟩ := hbund
    constructor
    · omega
    · unfold maxInt; omega
  have hw0 : w64 (y.«end» + 0) = y.«end» := by
    have : y.«end» + 0 = y.«end» := by omega
    rw [this]
    exact w64_eq (by omega) (by omega)
  have hgrow : stepGrow (w64 (y.«end» + 0)) y = y := by
    unfold stepGrow
    rw [hw0, if_neg]
    obtain ⟨_, _, _, _, _, a7, _⟩ := hbund
    omega
  have hrl : readLoop read (w64 (y.«end» + 0)) rf y = some y := by
    rw [hw0]
    exact readLoop_noop _ _ _ _ (by omega)
  refine ⟨y, ?_, hbund.1, hbund.2.1, hbund.2.2.1, hbund.2.2.2.1, hbund.2.2.2.2.1,
    hbund.2.2.2.2.2.1, hbund.2.2.2.2.2.2.1, hbund.2.2.2.2.2.2.2.1,
    hbund.2.2.2.2.2.2.2.2.1, hbund.2.2.2.2.2.2.2.2.2.1, hbund.2.2.2.2.2.2.2.2.2.2.1,
    hbund.2.2.2.2.2.2.2.2.2.2.2.1, hbund.2.2.2.2.2.2.2.2.2.2.2.2⟩
  simp only [scanTail, hyeq, hhint, hgrow, hrl]


theorem scanIter_nop {ρ : Type} (split : SplitFunc) (read : Reader ρ) (rf : Nat)
    (s : Protoscan ρ)
    (herr : s.err = none)
    (h1 : 0 ≤ s.start) (h2 : s.start ≤ s.«end») (h3 : s.«end» ≤ (s.Buffer.length : Int))
    (h4 : (s.Buffer.length : Int) ≤ 2 ^ 61) (h5 : s.«end» ≤ s.MaxBuffer)
    (h6 : s.MaxBuffer ≤ 2 ^ 61) (h7 : 0 ≤ s.empties) (h8 : s.empties ≤ 1000)
    (ho1 : (split s.window false).hint = 0) (ho2 : (split s.window false).advance = 0)
    (ho3 : (split s.window false).err = none) :
    (1000 < s.empties + 1 → ∃ s', scanIter split read rf s = IterOut.done false s' ∧
      s'.err = some ErrVal.NoProgress) ∧
    (s.empties + 1 ≤ 1000 → ∃ s', scanIter split read rf s = IterOut.cont s' ∧
      s'.err = none ∧ s'.empties = s.empties + 1 ∧ s'.window = s.window ∧
      0 ≤ s'.start ∧ s'.start ≤ s'.«end» ∧ s'.«end» ≤ ((s'.Buffer.length : Int)) ∧
      ((s'.Buffer.length : Int)) ≤ 2 ^ 61 ∧ s'.«end» ≤ s'.MaxBuffer ∧
      s'.MaxBuffer = s.MaxBuffer) := by
  have hflag : decide (s.err = some ErrVal.EOF) = false := by simp [herr]
  have hstart : w64 (s.start + (split s.window false).advance) = s.start := by
    rw [ho2]
    have : s.start + 0 = s.start := by omega
    rw [this]
    exact w64_eq (by omega) (by omega)
  have hidle : w64 (s.empties + 1) = s.empties + 1 := w64_eq (by omega) (by omega)
  simp only [scanIter, hflag, ho3]
  have hadv : ∀ x : Protoscan ρ, x.start = s.start → x.«end» = s.«end» →
      x.advance ((split s.window false).advance) = none := by
    intro x hx he
    unfold Protoscan.advance
    rw [if_neg (by omega), if_neg (by rw [hx, he, hstart]; omega)]
  simp only [stepTrunc_proj, herr]
  simp only [ne_eq, not_true_eq_false, Bool.false_eq_true, if_false,
    hadv (stepTrunc (split s.window false) s) (by simp) (by simp), ho2, gt_iff_lt,
    lt_irrefl, and_false, if_false, lt_self_iff_false]
  have hadv0 : (stepTrunc (split s.window false) s).advance 0 = none := by
    have := hadv (stepTrunc (split s.window false) s) (by simp) (by simp)
    rwa [ho2] at this
  simp only [hadv0]
  have hemp : (stepIdle (stepStart 0 (stepTrunc (split s.window false) s))).empties =
      s.empties + 1 := by
    simp [hidle]
  have hstart0 : w64 s.start = s.start := w64_eq (by omega) (by omega)
  constructor
  · intro hcr
    rw [if_pos (by rw [hemp]; unfold maxConsecutiveIdling; omega)]
    refine ⟨_, rfl, ?_⟩
    rw [setErr_err, if_pos (Or.inl (by simp [herr]))]
  · intro hle
    rw [if_neg (by rw [hemp]; unfold maxConsecutiveIdling; omega), ho1]
    obtain ⟨x', hxeq, e1, e2, e3, e4, e5, e6, e7, e8, e9, _⟩ :=
      scanTail_hint_zero read rf (stepIdle (stepStart 0 (stepTrunc (split s.window false) s)))
        (by simp [hstart0]; omega) (by simp [hstart0]; omega) (by simp; omega)
        (by simp; omega) (by simp; omega) (by simp; omega)
    refine ⟨x', hxeq, ?_, ?_, ?_, e4, e5, e6, e7, e8, ?_⟩
    · rw [e1]; simp [herr]
    · rw [e2, hemp]
    · rw [e3]
      unfold Protoscan.window
      simp [hstart0]
    · rw [e9]; simp

theorem nop_noProgress_loop {ρ : Type} (split : SplitFunc) (read : Reader ρ) (rf : Nat)
    (hsp : ∀ w, (split w false).hint = 0 ∧ (split w false).advance = 0 ∧
      (split w false).err = none) :
    ∀ (k : Nat) (s : Protoscan ρ),
      s.err = none → 0 ≤ s.start → s.start ≤ s.«end» → s.«end» ≤ (s.Buffer.length : Int) →
      (s.Buffer.length : Int) ≤ 2 ^ 61 → s.«end» ≤ s.MaxBuffer → s.MaxBuffer ≤ 2 ^ 61 →
      0 ≤ s.empties → s.empties ≤ 1000 → 1000 < s.empties + k →
      ∃ s', scanLoop split read rf k s = some (false, s') ∧
        s'.err = some ErrVal.NoProgress := by
  intro k
  induction k with
  | zero =>
    intro s _ _ _ _ _ _ _ _ h8 h9
    exact absurd h9 (by omega)
  | succ k ih =>
    intro s herr h1 h2 h3 h4 h5 h6 h7 h8 hk
    obtain ⟨ho1, ho2, ho3⟩ := hsp s.window
    have hnop := scanIter_nop split read rf s herr h1 h2 h3 h4 h5 h6 h7 h8 ho1 ho2 ho3
    by_cases hc : 1000 < s.empties + 1
    · obtain ⟨s', hit, herr'⟩ := hnop.1 hc
      refine ⟨s', ?_, herr'⟩
      rw [scanLoop, hit]
    · obtain ⟨s', hit, e1, e2, e3, e4, e5, e6, e7, e8, e9⟩ := hnop.2 (by omega)
      obtain ⟨s'', hrec, herr''⟩ := ih s' e1 e4 e5 e6 e7 e8 (by omega) (by omega)
        (by omega) (by omega)
      refine ⟨s'', ?_, herr''⟩
      rw [scanLoop]
      simp only [hit]
      exact hrec

theorem listWrite_nil (B : List UInt8) (off : Nat) : listWrite B off [] = B := by
  simp [listWrite]

theorem readLoop_zero {ρ : Type} (read : Reader ρ)
    (hz : ∀ st reg, read st reg = (⟨0, [], none⟩, st)) (claim : Int) :
    ∀ (rf : Nat) (x : Protoscan ρ), x.«end» < claim → x.err = none →
      0 ≤ x.«end» → x.«end» ≤ (x.Buffer.length : Int) → (x.Buffer.length : Int) ≤ 2 ^ 61 →
      0 ≤ x.empties → x.empties ≤ 1000 → 1000 < x.empties + rf →
      ∃ x', readLoop read claim rf x = some x' ∧ x'.err = some ErrVal.ErrNoProgress ∧
        x'.start = x.start ∧ x'.«end» = x.«end» ∧ x'.Buffer = x.Buffer ∧
        x'.MaxBuffer = x.MaxBuffer := by
  intro rf
  induction rf with
  | zero =>
    intro x _ _ _ _ _ _ h7 h8
    exact absurd h8 (by omega)
  | succ rf ih =>
    intro x hlt herr h1 h2 h3 h4 h5 hcr
    have hw64e : w64 (x.«end» + 0) = x.«end» := by
      rw [add_zero]; exact w64_eq (by omega) (by omega)
    have hw64i : w64 (x.empties + 1) = x.empties + 1 := w64_eq (by omega) (by omega)
    have hmci : maxConsecutiveIdling = (1000 : Int) := rfl
    unfold readLoop
    rw [if_pos hlt]
    simp only [hz, List.take_nil, listWrite_nil, gt_iff_lt, lt_self_iff_false, if_false,
      hw64e, hw64i]
    rw [if_neg (by simp; omega)]
    by_cases hc : 1000 < x.empties + 1
    · rw [if_pos (by simp [hmci]; omega)]
      refine ⟨_, rfl, ?_, by simp, by simp, by simp, by simp⟩
      rw [setErr_err, if_pos (Or.inl (by simp [herr]))]
    · rw [if_neg (by simp [hmci]; omega)]
      obtain ⟨x', hxeq, b1, b2, b3, b4, b5⟩ := ih
        { Buffer := x.Buffer, MaxBuffer := x.MaxBuffer, Tokens := x.Tokens,
          Indexes := x.Indexes, Gaps := x.Gaps, err := x.err, start := x.start,
          «end» := x.«end», empties := x.empties + 1, rst := x.rst }
        (by simpa using hlt) (by simpa using herr) (by simpa using h1) (by simpa using h2)
        (by simpa using h3) (by simp; omega) (by simp; omega) (by simp; omega)
      exact ⟨x', hxeq, b1, by simpa using b2, by simpa using b3, by simpa using b4,
        by simpa using b5⟩

theorem stepGrow_length {ρ : Type} (claim : Int) (s : Protoscan ρ) :
    (((stepGrow claim s).Buffer.length : Int)) = max ((s.Buffer.length : Int)) claim := by
  unfold stepGrow
  split
  · simp
    omega
  · simp
    omega

theorem window_nil {ρ : Type} (s : Protoscan ρ) (h1 : 0 ≤ s.start) (h2 : s.start = s.«end»)
    (h3 : s.«end» ≤ (s.Buffer.length : Int)) : s.window = [] := by
  have := window_length s h1 (by omega) h3
  have hlen : s.window.length = 0 := by omega
  exact List.eq_nil_of_length_eq_zero hlen

theorem scanIter_zeroRead {ρ : Type} (split : SplitFunc) (read : Reader ρ)
    (hz : ∀ st reg, read st reg = (⟨0, [], none⟩, st)) (rf : Nat) (s : Protoscan ρ)
    (herr : s.err = none) (hse : s.start = s.«end»)
    (h1 : 0 ≤ s.start) (h3 : s.«end» ≤ (s.Buffer.length : Int))
    (h4 : (s.Buffer.length : Int) ≤ 2 ^ 61) (h5 : s.«end» < s.MaxBuffer)
    (h6 : s.MaxBuffer ≤ 2 ^ 61) (h7 : 0 ≤ s.empties) (h8 : s.empties + 1 ≤ 1000)
    (hrf : 1000 < s.empties + 1 + rf)
    (ho1 : (split s.window false).hint = 1) (ho2 : (split s.window false).advance = 0)
    (ho3 : (split s.window false).err = none) :
    ∃ s', scanIter split read rf s = IterOut.cont s' ∧
      s'.err = some ErrVal.ErrNoProgress ∧ s'.start = s'.«end» ∧ 0 ≤ s'.start ∧
      s'.«end» ≤ (s'.Buffer.length : Int) ∧ s'.window = [] := by
  have hflag : decide (s.err = some ErrVal.EOF) = false := by simp [herr]
  have hstart0 : w64 s.start = s.start := w64_eq (by omega) (by omega)
  have hidle : w64 (s.empties + 1) = s.empties + 1 := w64_eq (by omega) (by omega)
  simp only [scanIter, hflag, ho3]
  simp only [stepTrunc_proj, herr]
  have hadv0 : (stepTrunc (split s.window false) s).advance 0 = none := by
    unfold Protoscan.advance
    rw [if_neg (by omega), if_neg (by simp [hstart0]; omega)]
  simp only [ne_eq, not_true_eq_false, Bool.false_eq_true, if_false, ho2, gt_iff_lt,
    lt_irrefl, and_false, if_false, lt_self_iff_false]
  simp only [hadv0]
  have hemp : (stepIdle (stepStart 0 (stepTrunc (split s.window false) s))).empties =
      s.empties + 1 := by simp [hidle]
  rw [if_neg (by rw [hemp]; unfold maxConsecutiveIdling; omega), ho1]
  -- evaluate the tail with hint 1 and the zero reader
  set X := stepIdle (stepStart 0 (stepTrunc (split s.window false) s)) with hX
  have hXb : X.err = none ∧ X.start = s.start ∧ X.«end» = s.«end» ∧ X.Buffer = s.Buffer ∧
      X.MaxBuffer = s.MaxBuffer ∧ X.empties = s.empties + 1 := by
    rw [hX]
    refine ⟨by simp [herr], by simp [hstart0], by simp, by simp, by simp, hemp⟩
  obtain ⟨hXe, hXs, hXE, hXB, hXM, hXem⟩ := hXb
  -- compaction
  have hY : ∃ y, stepCompact X = y ∧ y.err = none ∧ y.start = y.«end» ∧ 0 ≤ y.start ∧
      y.«end» ≤ (y.Buffer.length : Int) ∧ (y.Buffer.length : Int) ≤ 2 ^ 61 ∧
      y.«end» < y.MaxBuffer ∧ y.MaxBuffer ≤ 2 ^ 61 ∧ y.empties = s.empties + 1 := by
    unfold stepCompact
    split
    · have hce := compact_end X (by omega) (by omega) (by rw [hXE]; omega)
      have hcl := compact_buffer_length (s := X)
      refine ⟨compact X, rfl, by simp [hXe], ?_, by simp, ?_, ?_, ?_, ?_, by simp [hXem]⟩
      · simp only [compact_start, hce]
        omega
      · simp only [compact_start, hce, hcl]
        rw [hXB]
        omega
      · simp only [hcl]
        rw [hXB]
        omega
      · simp only [hce, compact_MaxBuffer]
        rw [hXM]
        omega
      · simp only [compact_MaxBuffer]
        rw [hXM]
        omega
    · refine ⟨X, rfl, hXe, by omega, by omega, ?_, ?_, ?_, ?_, hXem⟩
      · rw [hXE, hXB]
        omega
      · rw [hXB]
        omega
      · rw [hXE, hXM]
        omega
      · rw [hXM]
        omega
  obtain ⟨y, hyeq, y1, y2, y3, y4, y5, y6, y7, y8⟩ := hY
  have hw1 : w64 (y.«end» + 1) = y.«end» + 1 := w64_eq (by omega) (by omega)
  have hhint : y.hint 1 = none := by
    unfold Protoscan.hint
    rw [if_neg (by omega), if_neg]
    rw [not_or, hw1]
    constructor
    · omega
    · unfold maxInt; omega
  -- growth
  have hglen2 : (((stepGrow (w64 (y.«end» + 1)) y).Buffer.length : Int)) =
      max ((y.Buffer.length : Int)) (y.«end» + 1) := by
    rw [stepGrow_length, hw1]
  obtain ⟨x', hx'eq, c1, c2, c3, c4, c5⟩ := readLoop_zero read hz (w64 (y.«end» + 1))
    rf (stepGrow (w64 (y.«end» + 1)) y)
    (by simp only [stepGrow_proj]; rw [hw1]; omega)
    (by simp only [stepGrow_proj]; exact y1)
    (by simp only [stepGrow_proj]; omega)
    (by simp only [stepGrow_proj]; rw [hglen2]; omega)
    (by rw [hglen2]; omega)
    (by simp only [stepGrow_proj]; omega)
    (by simp only [stepGrow_proj]; omega)
    (by simp only [stepGrow_proj]; omega)
  simp only [scanTail, hyeq, hhint, hx'eq]
  have hc2 : x'.start = y.start := by
    rw [c2]; simp
  have hc3 : x'.«end» = y.«end» := by
    rw [c3]; simp
  have hc4 : (x'.Buffer.length : Int) = max ((y.Buffer.length : Int)) (y.«end» + 1) := by
    rw [c4]; exact hglen2
  refine ⟨x', rfl, c1, by omega, by omega, by omega, ?_⟩
  exact window_nil x' (by omega) (by omega) (by omega)

theorem zeroRead_ErrNoProgress {ρ : Type} (split : SplitFunc) (read : Reader ρ)
    (hz : ∀ st reg, read st reg = (⟨0, [], none⟩, st)) (rf : Nat) (s : Protoscan ρ)
    (herr : s.err = none) (hse : s.start = s.«end»)
    (h1 : 0 ≤ s.start) (h3 : s.«end» ≤ (s.Buffer.length : Int))
    (h4 : (s.Buffer.length : Int) ≤ 2 ^ 61) (h5 : s.«end» < s.MaxBuffer)
    (h6 : s.MaxBuffer ≤ 2 ^ 61) (hemp : s.empties = 0) (hrf : 1000 < 1 + (rf : Int))
    (hb1 : (split [] false).hint = 1) (hb2 : (split [] false).advance = 0)
    (hb3 : (split [] false).err = none) :
    ∃ s', Protoscan.Scan split read 2 rf s = some (false, s') ∧
      s'.err = some ErrVal.ErrNoProgress := by
  have hwin : s.window = [] := window_nil s h1 hse h3
  have hmb : s.MaxBuffer ≠ 0 := by omega
  have hscan : Protoscan.Scan split read 2 rf s = scanLoop split read rf 2 s := by
    simp only [Protoscan.Scan]
    rw [if_neg hmb, if_neg (by rw [herr]; simp)]
  obtain ⟨x, hit, c1, c2, c3, c4, c5⟩ := scanIter_zeroRead split read hz rf s herr hse h1
    h3 h4 h5 h6 (by omega) (by omega) (by omega)
    (by rw [hwin]; exact hb1) (by rw [hwin]; exact hb2) (by rw [hwin]; exact hb3)
  have hsp2 : (split x.window (x.err = some ErrVal.EOF)).err = none := by
    rw [c5, c1]
    simpa using hb3
  have hit2 := scanIter_sticky_noErr split read rf x (by rw [c1]; simp) hsp2
  refine ⟨stepTrunc (split x.window (x.err = some ErrVal.EOF)) x, ?_, by simp [c1]⟩
  rw [hscan, scanLoop]
  simp only [hit]
  rw [scanLoop]
  simp only [hit2]

theorem nop_NoProgress_Scan {ρ : Type} (split : SplitFunc) (read : Reader ρ) (rf : Nat)
    (s : Protoscan ρ)
    (hsp : ∀ w, (split w false).hint = 0 ∧ (split w false).advance = 0 ∧
      (split w false).err = none)
    (herr : s.err = none) (h1 : 0 ≤ s.start) (h2 : s.start ≤ s.«end»)
    (h3 : s.«end» ≤ (s.Buffer.length : Int)) (h4 : (s.Buffer.length : Int) ≤ 2 ^ 61)
    (h5 : s.«end» ≤ s.MaxBuffer) (h6 : s.MaxBuffer ≤ 2 ^ 61) (h6b : 1 ≤ s.MaxBuffer)
    (hemp : s.empties = 0) :
    ∃ s', Protoscan.Scan split read 1002 rf s = some (false, s') ∧
      s'.err = some ErrVal.NoProgress := by
  have hmb : ¬ (s.MaxBuffer = 0) := by omega
  have hscan : Protoscan.Scan split read 1002 rf s = scanLoop split read rf 1002 s := by
    simp only [Protoscan.Scan]
    rw [if_neg hmb, if_neg (by rw [herr]; simp)]
  rw [hscan]
  exact nop_noProgress_loop split read rf hsp 1002 s herr h1 h2 h3 h4 h5 h6
    (by omega) (by omega) (by omega)

/-- C4 (amended): `Scan` always terminates under non-progress, but the two
no-progress paths record different sticky errors.  (a) A callback that
keeps answering `(hint 0, advance 0, no error)` drives `Scan` to return
false with the sticky error `NoProgress` within the 1000-iteration ceiling
(fuel 1002 suffices from a fresh idle counter).  (b) A reader that always
reports zero bytes and no error, under a callback that keeps requesting one
more byte on an empty window, drives `Scan` to return false with the sticky
error `io.ErrNoProgress` — not `NoProgress` — once the read loop crosses
the same ceiling. -/
theorem Scan_no_progress_terminates :
    (∀ (ρ : Type) (split : SplitFunc) (read : Reader ρ) (rf : Nat) (s : Protoscan ρ),
      (∀ w, (split w false).hint = 0 ∧ (split w false).advance = 0 ∧
        (split w false).err = none) →
      s.err = none → 0 ≤ s.start → s.start ≤ s.«end» →
      s.«end» ≤ (s.Buffer.length : Int) → (s.Buffer.length : Int) ≤ 2 ^ 61 →
      s.«end» ≤ s.MaxBuffer → s.MaxBuffer ≤ 2 ^ 61 → 1 ≤ s.MaxBuffer → s.empties = 0 →
      ∃ s', Protoscan.Scan split read 1002 rf s = some (false, s') ∧
        s'.err = some ErrVal.NoProgress) ∧
    (∀ (ρ : Type) (split : SplitFunc) (read : Reader ρ) (rf : Nat) (s : Protoscan ρ),
      (∀ st reg, read st reg = (⟨0, [], none⟩, st)) →
      s.err = none → s.start = s.«end» → 0 ≤ s.start →
      s.«end» ≤ (s.Buffer.length : Int) → (s.Buffer.length : Int) ≤ 2 ^ 61 →
      s.«end» < s.MaxBuffer → s.MaxBuffer ≤ 2 ^ 61 → s.empties = 0 →
      1000 < 1 + (rf : Int) →
      (split [] false).hint = 1 → (split [] false).advance = 0 →
      (split [] false).err = none →
      ∃ s', Protoscan.Scan split read 2 rf s = some (false, s') ∧
        s'.err = some ErrVal.ErrNoProgress) := by
  constructor
  · intro ρ split read rf s hsp herr h1 h2 h3 h4 h5 h6 h6b hemp
    exact nop_NoProgress_Scan split read rf s hsp herr h1 h2 h3 h4 h5 h6 h6b hemp
  · intro ρ split read rf s hz herr hse h1 h3 h4 h5 h6 hemp hrf hb1 hb2 hb3
    exact zeroRead_ErrNoProgress split read hz rf s herr hse h1 h3 h4 h5 h6 hemp hrf
      hb1 hb2 hb3

/-- C4 (counterexample): the spec scenario — a source always reporting zero
bytes with no error, under the line-splitting callback — terminates with
sticky error `io.ErrNoProgress`, which is a different error value from
`NoProgress`, refuting the claim that this case records `NoProgress`. -/
theorem Scan_no_progress_counterexample :
    ∃ s', Protoscan.Scan ScanLines zeroRead 2 1200 (initScanner [] 65536 ()) =
        some (false, s') ∧
      s'.err = some ErrVal.ErrNoProgress ∧ s'.err ≠ some ErrVal.NoProgress := by
  obtain ⟨s', h1, h2⟩ := zeroRead_ErrNoProgress ScanLines zeroRead
    (fun st reg => rfl) 1200 (initScanner [] 65536 ())
    rfl rfl (by decide) (by decide) (by decide) (by decide) (by decide) rfl (by decide)
    (by decide) (by decide) (by decide)
  exact ⟨s', h1, h2, by rw [h2]; decide⟩

/-- Witness for C4 (amended) at concrete inputs: the always-`(0,0)` callback
and the zero reader under `ScanLines`. -/
theorem Scan_no_progress_terminates_witness :
    (∃ s', Protoscan.Scan nopSplit zeroRead 1002 7 (initScanner [] 65536 ()) =
        some (false, s') ∧ s'.err = some ErrVal.NoProgress) ∧
    (∃ s', Protoscan.Scan ScanLines zeroRead 2 1100 (initScanner [] 65536 ()) =
        some (false, s') ∧ s'.err = some ErrVal.ErrNoProgress) :=
  ⟨Scan_no_progress_terminates.1 Unit nopSplit zeroRead 7 (initScanner [] 65536 ())
      (fun w => ⟨rfl, rfl, rfl⟩) rfl (by decide) (by decide) (by decide) (by decide)
      (by decide) (by decide) (by decide) rfl,
    Scan_no_progress_terminates.2 Unit ScanLines zeroRead 1100 (initScanner [] 65536 ())
      (fun st reg => rfl) rfl rfl (by decide) (by decide) (by decide) (by decide)
      (by decide) rfl (by decide) (by decide) (by decide) (by decide)⟩

/-- C6 (code-bug exhibit): with a client-preallocated 10-byte buffer, a
1-byte hint (requested region `claim - end = 1`) and a reader that writes
one byte but reports a count of 5, the check `len(Buffer)-end < n`
(10 < 5 is false) accepts the impossible count instead of comparing against
the requested region: no `BadReadCount` is recorded, `end` jumps to 5 past
`claim = 1`, and the next token contains four bytes the reader never wrote.
The `largeReader` test documents the intent ("count larger than the number
of bytes requested" must give `BadReadCount`), so the code is a slip. -/
theorem badReadCount_check_uses_buffer_length :
    (Protoscan.Scan echoSplit overCountRead 5 5 overCountS0).map
        (fun p => (p.1, p.2.err, p.2.«end», p.2.Tokens)) =
      some (true, none, 5, [65, 0, 0, 0, 0]) ∧
    (5 : Int) > 1 := by
  exact ⟨rfl, by decide⟩

theorem readLoop_geom {ρ : Type} (read : Reader ρ) (claim : Int) :
    ∀ (rf : Nat) (x x' : Protoscan ρ), readLoop read claim rf x = some x' →
      0 ≤ x.«end» → x.«end» ≤ (x.Buffer.length : Int) → (x.Buffer.length : Int) ≤ 2 ^ 62 →
      x.«end» ≤ x'.«end» ∧ x'.«end» ≤ (x'.Buffer.length : Int) := by
  intro rf
  induction rf with
  | zero =>
    intro x x' h h1 h2 h3
    rw [readLoop] at h
    split at h
    · exact absurd h (by simp)
    · cases h
      omega
  | succ rf ih =>
    intro x x' h h1 h2 h3
    rw [readLoop] at h
    split at h
    case isTrue hlt =>
      simp only at h
      split at h
      case isTrue hbad =>
        cases h
        simp only [setErr_end, setErr_Buffer, listWrite_length]
        omega
      case isFalse hok =>
        push_neg at hok
        obtain ⟨hn0, hnle⟩ := hok
        rw [listWrite_length] at hnle
        have hw : w64 (x.«end» + (read x.rst (claim - x.«end»).toNat).1.n) =
            x.«end» + (read x.rst (claim - x.«end»).toNat).1.n :=
          w64_eq (by omega) (by omega)
        split at h
        · cases h
          simp only [setErr_end, setErr_Buffer, listWrite_length, hw]
          omega
        · split at h
          case isTrue hpos =>
            cases h
            simp only [listWrite_length, hw]
            omega
          case isFalse hnpos =>
            split at h
            · cases h
              simp only [setErr_end, setErr_Buffer, listWrite_length, hw]
              omega
            · have hn : (read x.rst (claim - x.«end»).toNat).1.n = 0 := by omega
              have hw0 : w64 x.«end» = x.«end» := w64_eq (by omega) (by omega)
              have := ih _ _ h (by simp [hw, hn, hw0]; omega)
                (by simp [hw, hn, hw0, listWrite_length]; omega)
                (by simp [listWrite_length]; omega)
              simp only [hw, hn, hw0, listWrite_length] at this
              simp only [add_zero, hw0] at this
              omega
    case isFalse =>
      cases h
      omega

theorem readLoop_honest_end {ρ : Type} (read : Reader ρ) (hr : HonestRead read)
    (claim M : Int) :
    ∀ (rf : Nat) (x x' : Protoscan ρ), readLoop read claim rf x = some x' →
      0 ≤ x.«end» → x.«end» ≤ (x.Buffer.length : Int) → (x.Buffer.length : Int) ≤ 2 ^ 62 →
      x.«end» ≤ M → claim ≤ M → x'.«end» ≤ M := by
  intro rf
  induction rf with
  | zero =>
    intro x x' h h1 h2 h3 h4 h5
    rw [readLoop] at h
    split at h
    · exact absurd h (by simp)
    · cases h; omega
  | succ rf ih =>
    intro x x' h h1 h2 h3 h4 h5
    rw [readLoop] at h
    split at h
    case isTrue hlt =>
      obtain ⟨ha, hb, _⟩ := hr x.rst (claim - x.«end»).toNat
      have hreg : ((claim - x.«end»).toNat : Int) = claim - x.«end» := by omega
      rw [hreg] at hb
      simp only at h
      split at h
      case isTrue hbad =>
        cases h
        simp only [setErr_end]
        omega
      case isFalse hok =>
        push_neg at hok
        obtain ⟨hn0, hnle⟩ := hok
        rw [listWrite_length] at hnle
        have hw : w64 (x.«end» + (read x.rst (claim - x.«end»).toNat).1.n) =
            x.«end» + (read x.rst (claim - x.«end»).toNat).1.n :=
          w64_eq (by omega) (by omega)
        split at h
        · cases h
          simp only [setErr_end, hw]
          omega
        · split at h
          case isTrue hpos =>
            cases h
            simp only [hw]
            omega
          case isFalse hnpos =>
            split at h
            · cases h
              simp only [setErr_end, hw]
              omega
            · have hn : (read x.rst (claim - x.«end»).toNat).1.n = 0 := by omega
              have hw0 : w64 x.«end» = x.«end» := w64_eq (by omega) (by omega)
              have := ih _ _ h (by simp [hw, hn, hw0]; omega)
                (by simp [hw, hn, hw0, listWrite_length]; omega)
                (by simp [listWrite_length]; omega)
                (by simp [hw, hn, hw0]; omega) h5
              exact this
    case isFalse =>
      cases h
      omega

theorem stepCompact_geom {ρ : Type} (x : Protoscan ρ)
    (h1 : 0 ≤ x.start) (h2 : x.start ≤ x.«end») (h3 : x.«end» ≤ (x.Buffer.length : Int))
    (h4 : (x.Buffer.length : Int) ≤ 2 ^ 61) :
    0 ≤ (stepCompact x).start ∧ (stepCompact x).start ≤ (stepCompact x).«end» ∧
    (stepCompact x).«end» ≤ x.«end» ∧
    (stepCompact x).«end» ≤ (((stepCompact x).Buffer.length : Int)) ∧
    (stepCompact x).Buffer.length = x.Buffer.length ∧
    (stepCompact x).window = x.window := by
  unfold stepCompact
  split
  · have hce := compact_end x h1 h2 (by omega)
    have hcl := compact_buffer_length (s := x)
    refine ⟨by simp, ?_, ?_, ?_, hcl, compact_window x h1 h2 h3 (by omega)⟩
    · simp only [compact_start, hce]
      omega
    · simp only [hce]
      omega
    · simp only [hce, hcl]
      omega
  · exact ⟨h1, h2, by omega, h3, rfl, rfl⟩

theorem scanTail_geom {ρ : Type} (read : Reader ρ) (rf : Nat) (n : Int) (x : Protoscan ρ)
    (h1 : 0 ≤ x.start) (h2 : x.start ≤ x.«end») (h3 : x.«end» ≤ (x.Buffer.length : Int))
    (h4 : (x.Buffer.length : Int) ≤ 2 ^ 61) (h7 : x.MaxBuffer ≤ 2 ^ 61) :
    (∀ b y, scanTail read rf n x = IterOut.done b y →
       0 ≤ y.start ∧ y.start ≤ y.«end» ∧ y.«end» ≤ ((y.Buffer.length : Int)) ∧
       ((y.Buffer.length : Int)) ≤ ((x.Buffer.length : Int)) ∧ y.MaxBuffer = x.MaxBuffer ∧
       y.«end» ≤ x.«end») ∧
    (∀ y, scanTail read rf n x = IterOut.cont y →
       (0 ≤ y.start ∧ y.start ≤ y.«end» ∧ y.«end» ≤ ((y.Buffer.length : Int)) ∧
        ((y.Buffer.length : Int)) ≤ max ((x.Buffer.length : Int)) x.MaxBuffer ∧
        y.MaxBuffer = x.MaxBuffer) ∧
       (HonestRead read → x.«end» ≤ x.MaxBuffer → y.«end» ≤ x.MaxBuffer)) := by
  obtain ⟨c1, c2, c3, c4, c5, c6⟩ := stepCompact_geom x h1 h2 h3 h4
  constructor
  · intro b y h
    simp only [scanTail] at h
    split at h
    · cases h
      refine ⟨by simpa using c1, ?_, ?_, ?_, by simp, ?_⟩
      · simpa using c2
      · simp only [setErr_end, setErr_Buffer]
        exact c4
      · simp only [setErr_Buffer, c5]
        omega
      · simp only [setErr_end]
        exact c3
    · split at h
      · cases h
      · cases h
  · intro y h
    simp only [scanTail] at h
    split at h
    · cases h
    · rename_i hh
      split at h
      · cases h
      · rename_i y2 hrl
        cases h
        have hcl : w64 ((stepCompact x).«end» + n) ≤ (stepCompact x).MaxBuffer := by
          unfold Protoscan.hint at hh
          split at hh
          · cases hh
          · split at hh
            · cases hh
            · rename_i hc
              push_neg at hc
              exact hc.1
        simp only [stepCompact_proj] at hcl
        have hglen : (((stepGrow (w64 ((stepCompact x).«end» + n)) (stepCompact x)).Buffer.length : Int)) =
            max (((stepCompact x).Buffer.length : Int)) (w64 ((stepCompact x).«end» + n)) :=
          stepGrow_length _ _
    
        have hpres := readLoop_pres _ _ _ _ _ hrl
        have hgeom := readLoop_geom _ _ _ _ _ hrl
          (by simp only [stepGrow_proj]; omega)
          (by simp only [stepGrow_proj]; rw [hglen]; simp only [c5]; omega)
          (by rw [hglen]; simp only [c5]; omega)
        constructor
        · refine ⟨?_, ?_, ?_, ?_, ?_⟩
          · have := hpres.2.1
            simp only [stepGrow_proj] at this
            omega
          · have hst := hpres.2.1
            simp only [stepGrow_proj] at hst
            have := hgeom.1
            simp only [stepGrow_proj] at this
            omega
          · exact hgeom.2
          · have := hpres.2.2.1
            rw [this, hglen]
            simp only [c5]
            omega
          · have := hpres.1
            simp only [stepGrow_proj, stepCompact_proj] at this
            omega
        · intro hr hEM
          refine readLoop_honest_end read hr _ x.MaxBuffer _ _ _ hrl
            (by simp only [stepGrow_proj]; omega)
            (by simp only [stepGrow_proj]; rw [hglen]; simp only [c5]; omega)
            (by rw [hglen]; simp only [c5]; omega)
            (by simp only [stepGrow_proj]; omega)
            (by omega)

theorem scanIter_geom {ρ : Type} (split : SplitFunc) (read : Reader ρ) (rf : Nat)
    (s : Protoscan ρ) (Hs : SplitBounded split)
    (h1 : 0 ≤ s.start) (h2 : s.start ≤ s.«end») (h3 : s.«end» ≤ (s.Buffer.length : Int))
    (h4 : (s.Buffer.length : Int) ≤ 2 ^ 61) (h7 : s.MaxBuffer ≤ 2 ^ 61) :
    (∀ b y, scanIter split read rf s = IterOut.done b y →
       0 ≤ y.start ∧ y.start ≤ y.«end» ∧ y.«end» ≤ ((y.Buffer.length : Int)) ∧
       ((y.Buffer.length : Int)) ≤ ((s.Buffer.length : Int)) ∧ y.MaxBuffer = s.MaxBuffer ∧
       y.«end» ≤ s.«end») ∧
    (∀ y, scanIter split read rf s = IterOut.cont y →
       (0 ≤ y.start ∧ y.start ≤ y.«end» ∧ y.«end» ≤ ((y.Buffer.length : Int)) ∧
        ((y.Buffer.length : Int)) ≤ max ((s.Buffer.length : Int)) s.MaxBuffer ∧
        y.MaxBuffer = s.MaxBuffer) ∧
       (HonestRead read → s.«end» ≤ s.MaxBuffer → y.«end» ≤ s.MaxBuffer)) := by
  have hwl : (s.window.length : Int) ≤ 2 ^ 61 := by
    have := window_length_le s
    omega
  have hadvb := (Hs s.window (s.err = some ErrVal.EOF) hwl).1
  set o := split s.window (s.err = some ErrVal.EOF) with ho
  have hstart' : ∀ x : Protoscan ρ, x.start = s.start → x.«end» = s.«end» →
      x.advance o.advance = none →
      0 ≤ w64 (x.start + o.advance) ∧ w64 (x.start + o.advance) ≤ s.«end» := by
    intro x hxs hxe hok
    unfold Protoscan.advance at hok
    split at hok
    · cases hok
    · split at hok
      · cases hok
      · rename_i hnneg hle
        push_neg at hnneg hle
        rw [hxs, hxe] at hle
        rw [hxs]
        have hw : w64 (s.start + o.advance) = s.start + o.advance :=
          w64_eq (by omega) (by omega)
        rw [hw] at hle ⊢
        omega
  constructor
  · intro b y h
    simp only [scanIter] at h
    rw [← ho] at h
    split at h
    · injection h with hb hy
      subst hy
      refine ⟨by simpa using h1, by simpa using h2, by simpa using h3, by simp,
        by simp, by simp⟩
    · split at h
      · cases h
        refine ⟨by simpa using h1, by simpa using h2, by simpa using h3, by simp,
          by simp, by simp⟩
      · split at h
        · cases h
          refine ⟨by simpa using h1, by simpa using h2, by simpa using h3, by simp,
            by simp, by simp⟩
        · rename_i hadv
          obtain ⟨hs0, hs1⟩ := hstart' (stepTrunc o s) (by simp) (by simp) hadv
          split at h
          · cases h
            refine ⟨by simpa using hs0, by simpa using hs1, by simpa using h3,
              by simp, by simp, by simp⟩
          · split at h
            · have := (scanTail_geom read rf o.hint
                (stepZero (stepStart o.advance (stepTrunc o s)))
                (by simpa using hs0) (by simpa using hs1) (by simpa using h3)
                (by simpa using h4) (by simpa using h7)).1 _ _ h
              simp only [stepZero_proj, stepStart_proj, stepTrunc_proj] at this
              refine ⟨this.1, this.2.1, this.2.2.1, this.2.2.2.1, this.2.2.2.2.1, ?_⟩
              have h6 := this.2.2.2.2.2
              omega
            · split at h
              · cases h
                refine ⟨by simpa using hs0, by simpa using hs1, by simpa using h3,
                  by simp, by simp, by simp⟩
              · have := (scanTail_geom read rf o.hint
                  (stepIdle (stepStart o.advance (stepTrunc o s)))
                  (by simpa using hs0) (by simpa using hs1) (by simpa using h3)
                  (by simpa using h4) (by simpa using h7)).1 _ _ h
                simp only [stepIdle_proj, stepStart_proj, stepTrunc_proj] at this
                refine ⟨this.1, this.2.1, this.2.2.1, this.2.2.2.1, this.2.2.2.2.1, ?_⟩
                have h6 := this.2.2.2.2.2
                omega
  · intro y h
    simp only [scanIter] at h
    rw [← ho] at h
    split at h
    · cases h
    · split at h
      · cases h
      · split at h
        · cases h
        · rename_i hadv
          obtain ⟨hs0, hs1⟩ := hstart' (stepTrunc o s) (by simp) (by simp) hadv
          split at h
          · cases h
          · split at h
            · have := (scanTail_geom read rf o.hint
                (stepZero (stepStart o.advance (stepTrunc o s)))
                (by simpa using hs0) (by simpa using hs1) (by simpa using h3)
                (by simpa using h4) (by simpa using h7)).2 _ h
              simp only [stepZero_proj, stepStart_proj, stepTrunc_proj] at this
              exact this
            · split at h
              · cases h
              · have := (scanTail_geom read rf o.hint
                  (stepIdle (stepStart o.advance (stepTrunc o s)))
                  (by simpa using hs0) (by simpa using hs1) (by simpa using h3)
                  (by simpa using h4) (by simpa using h7)).2 _ h
                simp only [stepIdle_proj, stepStart_proj, stepTrunc_proj] at this
                exact this

theorem scanLoop_geom {ρ : Type} (split : SplitFunc) (read : Reader ρ) (rf : Nat)
    (Hs : SplitBounded split) (M L : Int) (hL : L ≤ 2 ^ 61) (hML : M ≤ L) :
    ∀ (fuel : Nat) (s : Protoscan ρ) (b : Bool) (s' : Protoscan ρ),
      scanLoop split read rf fuel s = some (b, s') →
      0 ≤ s.start → s.start ≤ s.«end» → s.«end» ≤ (s.Buffer.length : Int) →
      (s.Buffer.length : Int) ≤ L → s.MaxBuffer = M →
      (0 ≤ s'.start ∧ s'.start ≤ s'.«end» ∧ s'.«end» ≤ (s'.Buffer.length : Int) ∧
       (s'.Buffer.length : Int) ≤ L ∧ s'.MaxBuffer = M) ∧
      (HonestRead read → s.«end» ≤ M → s'.«end» ≤ M) := by
  intro fuel
  induction fuel with
  | zero =>
    intro s b s' h
    exact absurd h (by simp [scanLoop])
  | succ fuel ih =>
    intro s b s' h g1 g2 g3 g4 g5
    rw [scanLoop] at h
    split at h
    · rename_i b' s'' hit
      cases h
      have := (scanIter_geom split read rf s Hs g1 g2 g3 (by omega) (by omega)).1 _ _ hit
      exact ⟨⟨this.1, this.2.1, this.2.2.1, by omega, by omega⟩,
        fun _ hEM => by omega⟩
    · rename_i s'' hit
      have hc := (scanIter_geom split read rf s Hs g1 g2 g3 (by omega) (by omega)).2 _ hit
      obtain ⟨⟨c1, c2, c3, c4, c5⟩, ch⟩ := hc
      have := ih _ _ _ h c1 c2 c3 (by omega) (by omega)
      refine ⟨this.1, fun hr hEM => ?_⟩
      have hch := ch hr (by omega)
      exact this.2 hr (by omega)
    · exact absurd h (by simp)

/-- C8 (amended): every `Scan` call preserves `0 ≤ start ≤ end ≤ len(Buffer)`
and grows the buffer to at most `max len(Buffer) MaxBuffer`, provided the
callback's advance and hint counts stay far from 64-bit overflow
(`SplitBounded`); `end ≤ MaxBuffer` holds additionally whenever the reader
honestly reports counts that fit the requested region (`HonestRead`) — a
misbehaving reader can push `end` beyond `MaxBuffer` (see the
counterexample), so the unconditional form of the claim fails. -/
theorem Scan_buffer_offsets {ρ : Type} (split : SplitFunc) (read : Reader ρ)
    (fuel rf : Nat) (s : Protoscan ρ) (b : Bool) (s' : Protoscan ρ)
    (Hs : SplitBounded split)
    (h1 : 0 ≤ s.start) (h2 : s.start ≤ s.«end») (h3 : s.«end» ≤ (s.Buffer.length : Int))
    (h4 : (s.Buffer.length : Int) ≤ 2 ^ 61) (h5 : 1 ≤ s.MaxBuffer)
    (h6 : s.MaxBuffer ≤ 2 ^ 61)
    (h : Protoscan.Scan split read fuel rf s = some (b, s')) :
    (0 ≤ s'.start ∧ s'.start ≤ s'.«end» ∧ s'.«end» ≤ (s'.Buffer.length : Int) ∧
     (s'.Buffer.length : Int) ≤ max ((s.Buffer.length : Int)) s.MaxBuffer ∧
     s'.MaxBuffer = s.MaxBuffer) ∧
    (HonestRead read → s.«end» ≤ s.MaxBuffer → s'.«end» ≤ s'.MaxBuffer) := by
  have hmb : ¬ (s.MaxBuffer = 0) := by omega
  simp only [Protoscan.Scan] at h
  rw [if_neg hmb] at h
  split at h
  · cases h
    exact ⟨⟨h1, h2, h3, by omega, rfl⟩, fun _ hEM => hEM⟩
  · have := scanLoop_geom split read rf Hs s.MaxBuffer
      (max ((s.Buffer.length : Int)) s.MaxBuffer) (by omega) (by omega)
      fuel s b s' h h1 h2 h3 (by omega) rfl
    obtain ⟨⟨a1, a2, a3, a4, a5⟩, hh⟩ := this
    exact ⟨⟨a1, a2, a3, a4, a5⟩, fun hr hEM => by
      have := hh hr hEM
      omega⟩

/-- C8 (counterexample): with a 10-byte client buffer, `MaxBuffer = 3` and a
reader reporting a count of 10 (accepted because the check compares against
`len(Buffer) - end`, not the requested region), `Scan` returns true with
`end = 10 > MaxBuffer = 3`, refuting "`end` never exceeds `MaxBuffer` for
every behaviour of the callback and the reader". -/
theorem Scan_buffer_offsets_counterexample :
    (Protoscan.Scan echoSplit overCount10Read 5 5 lowCapS0).map
        (fun p => (p.1, p.2.«end», p.2.MaxBuffer)) = some (true, 10, 3) ∧
    ¬ ((10 : Int) ≤ 3) :=
  ⟨rfl, by decide⟩

set_option maxHeartbeats 1600000 in
/-- Witness for C8 (amended): one `Scan` of a single-byte input with
`ScanBytes` over the honest maximal reader. -/
theorem Scan_buffer_offsets_witness :
    (0 ≤ byteS1.start ∧ byteS1.start ≤ byteS1.«end» ∧
     byteS1.«end» ≤ (byteS1.Buffer.length : Int) ∧
     (byteS1.Buffer.length : Int) ≤ max ((byteS0.Buffer.length : Int)) byteS0.MaxBuffer ∧
     byteS1.MaxBuffer = byteS0.MaxBuffer) ∧
    (HonestRead fullRead → byteS0.«end» ≤ byteS0.MaxBuffer →
      byteS1.«end» ≤ byteS1.MaxBuffer) :=
  Scan_buffer_offsets ScanBytes fullRead 10 5 byteS0 true byteS1
    (by
      intro w f hw
      cases w with
      | nil => cases f <;> exact ⟨by decide, by decide⟩
      | cons b bs => exact ⟨by norm_num [ScanBytes], by norm_num [ScanBytes]⟩)
    (by decide) (by decide) (by decide) (by decide) (by decide) (by decide) (by rfl)

theorem readLoop_congr {ρ : Type} (r1 r2 : Reader ρ) (claim : Int)
    (hagree : ∀ st reg, reg ≤ 1 → r1 st reg = r2 st reg) :
    ∀ (rf : Nat) (x : Protoscan ρ), claim - x.«end» ≤ 1 → 0 ≤ x.«end» → x.«end» ≤ 2 ^ 62 →
      readLoop r1 claim rf x = readLoop r2 claim rf x := by
  intro rf
  induction rf with
  | zero => intro x _ _ _; rfl
  | succ rf ih =>
    intro x hc h0 h1
    unfold readLoop
    split
    case isTrue hlt =>
      have hreg : (claim - x.«end»).toNat ≤ 1 := by omega
      simp only [hagree x.rst ((claim - x.«end»).toNat) hreg]
      split
      case isTrue => rfl
      case isFalse hok =>
        push_neg at hok
        split
        · rfl
        · split
          case isTrue => rfl
          case isFalse hnpos =>
            split
            case isTrue => rfl
            case isFalse =>
              have hn : (r2 x.rst (claim - x.«end»).toNat).1.n = 0 := by omega
              have hw0 : w64 x.«end» = x.«end» := w64_eq (by omega) (by omega)
              exact ih _ (by simp [hn, hw0]; omega) (by simp [hn, hw0]; omega)
                (by simp [hn, hw0]; omega)
    case isFalse => rfl

theorem scanTail_congr {ρ : Type} (r1 r2 : Reader ρ) (rf : Nat) (n : Int)
    (hagree : ∀ st reg, reg ≤ 1 → r1 st reg = r2 st reg) (hn : n ≤ 1) (x : Protoscan ρ)
    (h1 : 0 ≤ x.start) (h2 : x.start ≤ x.«end») (h3 : x.«end» ≤ (x.Buffer.length : Int))
    (h4 : (x.Buffer.length : Int) ≤ 2 ^ 61) :
    scanTail r1 rf n x = scanTail r2 rf n x := by
  obtain ⟨c1, c2, c3, c4, c5, c6⟩ := stepCompact_geom x h1 h2 h3 h4
  simp only [scanTail]
  split
  · rfl
  · rename_i hh
    have hn0 : 0 ≤ n := by
      unfold Protoscan.hint at hh
      split at hh
      · cases hh
      · rename_i hnn
        omega
    have hw : w64 ((stepCompact x).«end» + n) = (stepCompact x).«end» + n :=
      w64_eq (by omega) (by omega)
    rw [readLoop_congr r1 r2 _ hagree rf _
      (by simp only [stepGrow_proj, hw]; omega)
      (by simp only [stepGrow_proj]; omega)
      (by simp only [stepGrow_proj]; omega)]

theorem scanIter_congr {ρ : Type} (split : SplitFunc) (r1 r2 : Reader ρ) (rf : Nat)
    (s : Protoscan ρ) (Hs : SplitBounded split)
    (hagree : ∀ st reg, reg ≤ 1 → r1 st reg = r2 st reg)
    (Hh : ∀ w f, (split w f).hint ≤ 1)
    (h1 : 0 ≤ s.start) (h2 : s.start ≤ s.«end») (h3 : s.«end» ≤ (s.Buffer.length : Int))
    (h4 : (s.Buffer.length : Int) ≤ 2 ^ 61) :
    scanIter split r1 rf s = scanIter split r2 rf s := by
  have hwl : (s.window.length : Int) ≤ 2 ^ 61 := by
    have := window_length_le s
    omega
  have hadvb := (Hs s.window (s.err = some ErrVal.EOF) hwl).1
  simp only [scanIter]
  set o := split s.window (s.err = some ErrVal.EOF) with ho
  have hstart' : ∀ x : Protoscan ρ, x.start = s.start → x.«end» = s.«end» →
      x.advance o.advance = none →
      0 ≤ w64 (x.start + o.advance) ∧ w64 (x.start + o.advance) ≤ s.«end» := by
    intro x hxs hxe hok
    unfold Protoscan.advance at hok
    split at hok
    · cases hok
    · split at hok
      · cases hok
      · rename_i hnneg hle
        push_neg at hnneg hle
        rw [hxs, hxe] at hle
        rw [hxs]
        have hw : w64 (s.start + o.advance) = s.start + o.advance :=
          w64_eq (by omega) (by omega)
        rw [hw] at hle ⊢
        omega
  split
  · rfl
  · split
    · rfl
    · split
      · rfl
      · rename_i hadv
        obtain ⟨hs0, hs1⟩ := hstart' (stepTrunc o s) (by simp) (by simp) hadv
        split
        · rfl
        · split
          · exact scanTail_congr r1 r2 rf o.hint hagree (Hh _ _) _
              (by simpa using hs0) (by simpa using hs1) (by simpa using h3)
              (by simpa using h4)
          · split
            · rfl
            · exact scanTail_congr r1 r2 rf o.hint hagree (Hh _ _) _
                (by simpa using hs0) (by simpa using hs1) (by simpa using h3)
                (by simpa using h4)

theorem scanLoop_congr {ρ : Type} (split : SplitFunc) (r1 r2 : Reader ρ) (rf : Nat)
    (Hs : SplitBounded split)
    (hagree : ∀ st reg, reg ≤ 1 → r1 st reg = r2 st reg)
    (Hh : ∀ w f, (split w f).hint ≤ 1) (M L : Int) (hL : L ≤ 2 ^ 61) (hML : M ≤ L) :
    ∀ (fuel : Nat) (s : Protoscan ρ), 0 ≤ s.start → s.start ≤ s.«end» →
      s.«end» ≤ (s.Buffer.length : Int) → (s.Buffer.length : Int) ≤ L → s.MaxBuffer = M →
      scanLoop split r1 rf fuel s = scanLoop split r2 rf fuel s := by
  intro fuel
  induction fuel with
  | zero => intro s _ _ _ _ _; rfl
  | succ fuel ih =>
    intro s g1 g2 g3 g4 g5
    have hIter : scanIter split r1 rf s = scanIter split r2 rf s :=
      scanIter_congr split r1 r2 rf s Hs hagree Hh g1 g2 g3 (by omega)
    rw [scanLoop, scanLoop, hIter]
    cases hio : scanIter split r2 rf s with
    | done b y => rfl
    | fuelOut => rfl
    | cont y =>
      have hg := ((scanIter_geom split r2 rf s Hs g1 g2 g3 (by omega)
        (by omega)).2 y hio).1
      exact ih y hg.1 hg.2.1 hg.2.2.1
        (le_trans hg.2.2.2.1 (max_le g4 (by omega))) (hg.2.2.2.2.trans g5)

theorem readAgree1 : ∀ (st : List UInt8) (reg : Nat), reg ≤ 1 →
    chunkRead 1 st reg = fullRead st reg := by
  intro st reg hreg
  unfold chunkRead fullRead
  split
  · rfl
  · have : min (min 1 reg) st.length = min reg st.length := by omega
    rw [this]

theorem Scan_geom {ρ : Type} (split : SplitFunc) (read : Reader ρ)
    (fuel rf : Nat) (s : Protoscan ρ) (b : Bool) (s' : Protoscan ρ)
    (Hs : SplitBounded split)
    (g1 : 0 ≤ s.start) (g2 : s.start ≤ s.«end») (g3 : s.«end» ≤ (s.Buffer.length : Int))
    (g4 : (s.Buffer.length : Int) ≤ 2 ^ 61) (g5 : s.MaxBuffer ≤ 2 ^ 61)
    (h : Protoscan.Scan split read fuel rf s = some (b, s')) :
    0 ≤ s'.start ∧ s'.start ≤ s'.«end» ∧ s'.«end» ≤ (s'.Buffer.length : Int) ∧
    (s'.Buffer.length : Int) ≤ 2 ^ 61 ∧ s'.MaxBuffer ≤ 2 ^ 61 := by
  simp only [Protoscan.Scan] at h
  by_cases hmb : s.MaxBuffer = 0
  · rw [if_pos hmb] at h
    split at h
    · cases h
      exact ⟨by simpa using g1, by simpa using g2, by simpa using g3, by simpa using g4,
        by norm_num [maxBufferDefault]⟩
    · have := scanLoop_geom split read rf Hs maxBufferDefault (2 ^ 61) (by norm_num)
        (by norm_num [maxBufferDefault]) fuel _ b s' h (by simpa using g1)
        (by simpa using g2) (by simpa using g3) (by simpa using g4) (by simp)
      exact ⟨this.1.1, this.1.2.1, this.1.2.2.1, this.1.2.2.2.1,
        by rw [this.1.2.2.2.2]; norm_num [maxBufferDefault]⟩
  · rw [if_neg hmb] at h
    split at h
    · cases h
      exact ⟨g1, g2, g3, g4, g5⟩
    · have := scanLoop_geom split read rf Hs s.MaxBuffer (2 ^ 61) (by norm_num)
        g5 fuel _ b s' h g1 g2 g3 g4 rfl
      exact ⟨this.1.1, this.1.2.1, this.1.2.2.1, this.1.2.2.2.1,
        by rw [this.1.2.2.2.2]; exact g5⟩

theorem Scan_congr {ρ : Type} (split : SplitFunc) (r1 r2 : Reader ρ) (fuel rf : Nat)
    (Hs : SplitBounded split)
    (hagree : ∀ st reg, reg ≤ 1 → r1 st reg = r2 st reg)
    (Hh : ∀ w f, (split w f).hint ≤ 1) (s : Protoscan ρ)
    (g1 : 0 ≤ s.start) (g2 : s.start ≤ s.«end») (g3 : s.«end» ≤ (s.Buffer.length : Int))
    (g4 : (s.Buffer.length : Int) ≤ 2 ^ 61) (g5 : s.MaxBuffer ≤ 2 ^ 61) :
    Protoscan.Scan split r1 fuel rf s = Protoscan.Scan split r2 fuel rf s := by
  simp only [Protoscan.Scan]
  by_cases hmb : s.MaxBuffer = 0
  · rw [if_pos hmb]
    split
    · rfl
    · exact scanLoop_congr split r1 r2 rf Hs hagree Hh maxBufferDefault (2 ^ 61)
        (by norm_num) (by norm_num [maxBufferDefault]) fuel _ (by simpa using g1)
        (by simpa using g2) (by simpa using g3) (by simpa using g4) (by simp)
  · rw [if_neg hmb]
    split
    · rfl
    · exact scanLoop_congr split r1 r2 rf Hs hagree Hh s.MaxBuffer (2 ^ 61)
        (by norm_num) g5 fuel s g1 g2 g3 g4 rfl

theorem scanAll_congr {ρ : Type} (split : SplitFunc) (r1 r2 : Reader ρ) (fuel rf : Nat)
    (Hs : SplitBounded split)
    (hagree : ∀ st reg, reg ≤ 1 → r1 st reg = r2 st reg)
    (Hh : ∀ w f, (split w f).hint ≤ 1) :
    ∀ (m : Nat) (s : Protoscan ρ), 0 ≤ s.start → s.start ≤ s.«end» →
      s.«end» ≤ (s.Buffer.length : Int) → (s.Buffer.length : Int) ≤ 2 ^ 61 →
      s.MaxBuffer ≤ 2 ^ 61 →
      scanAll split r1 fuel rf m s = scanAll split r2 fuel rf m s := by
  intro m
  induction m with
  | zero => intro s _ _ _ _ _; rfl
  | succ m ih =>
    intro s g1 g2 g3 g4 g5
    have hS : Protoscan.Scan split r1 fuel rf s = Protoscan.Scan split r2 fuel rf s :=
      Scan_congr split r1 r2 fuel rf Hs hagree Hh s g1 g2 g3 g4 g5
    rw [scanAll, scanAll, hS]
    cases hres : Protoscan.Scan split r2 fuel rf s with
    | none => rfl
    | some p =>
      obtain ⟨b, s'⟩ := p
      cases b with
      | false => rfl
      | true =>
        have hg := Scan_geom split r2 fuel rf s true s' Hs g1 g2 g3 g4 g5 hres
        exact congrArg
          (fun z => match z with
            | none => none
            | some (ts, s'') => some (s'.Tokens :: ts, s''))
          (ih s' hg.1 hg.2.1 hg.2.2.1 hg.2.2.2.1 hg.2.2.2.2)

/-- C7 (counterexample): the token sequence is not independent of chunking in
general: `sizeProbeSplit`, a callback whose verdict depends on how much of the
window is filled, turns the two-byte input into one token under the one-shot
reader but two tokens under the one-byte reader. -/
theorem Scan_chunking_counterexample :
    (scanAll sizeProbeSplit fullRead 20 10 10 (initScanner [] 65536 [97, 98])).map
        (fun p => p.1) = some [[97, 98]] ∧
    (scanAll sizeProbeSplit (chunkRead 1) 20 10 10 (initScanner [] 65536 [97, 98])).map
        (fun p => p.1) = some [[97], [98]] ∧
    ([[97, 98]] : List (List UInt8)) ≠ [[97], [98]] :=
  ⟨rfl, rfl, by decide⟩

/-- C7 (amended): whenever every hint the callback returns is at most 1, so
that the engine never asks the reader for more than one byte at a time, a
session over the one-byte-per-read source is literally equal to the session
over the deliver-everything source: same Scan results, same token sequence,
same final state. In general the token sequence depends on the chunking,
because the callback observes partially filled windows (see the
counterexample). -/
theorem Scan_chunking_independent (split : SplitFunc) (Hs : SplitBounded split)
    (Hh : ∀ w f, (split w f).hint ≤ 1) (input : List UInt8) (maxB : Int)
    (hmb : maxB ≤ 2 ^ 61) (m fuel rf : Nat) :
    scanAll split (chunkRead 1) fuel rf m (initScanner [] maxB input) =
    scanAll split fullRead fuel rf m (initScanner [] maxB input) :=
  scanAll_congr split (chunkRead 1) fullRead fuel rf Hs readAgree1 Hh m _
    (by norm_num [initScanner]) (by norm_num [initScanner]) (by norm_num [initScanner])
    (by norm_num [initScanner]) (by simpa [initScanner] using hmb)

/-- Witness for C7 (amended): `ScanBytes` over a two-byte input, where the
one-byte reader and the one-shot reader produce identical sessions. -/
theorem Scan_chunking_independent_witness :
    scanAll ScanBytes (chunkRead 1) 20 10 5 (initScanner [] 65536 [97, 98]) =
    scanAll ScanBytes fullRead 20 10 5 (initScanner [] 65536 [97, 98]) :=
  Scan_chunking_independent ScanBytes
    (by
      intro w f hw
      cases w with
      | nil => cases f <;> exact ⟨by decide, by decide⟩
      | cons b bs => exact ⟨by norm_num [ScanBytes], by norm_num [ScanBytes]⟩)
    (by
      intro w f
      cases w with
      | nil => cases f <;> decide
      | cons b bs => norm_num [ScanBytes])
    [97, 98] 65536 (by norm_num) 5 20 10

@[simp] theorem absSetErr_proj (a : AbsScan) (e : ErrVal) :
    (absSetErr a e).window = a.window ∧ (absSetErr a e).rest = a.rest ∧
    (absSetErr a e).maxB = a.maxB ∧ (absSetErr a e).Tokens = a.Tokens ∧
    (absSetErr a e).Indexes = a.Indexes ∧ (absSetErr a e).Gaps = a.Gaps ∧
    (absSetErr a e).empties = a.empties := by
  unfold absSetErr
  split <;> simp

theorem absSetErr_err (a : AbsScan) (e : ErrVal) :
    (absSetErr a e).err =
      if a.err = none ∨ a.err = some ErrVal.EOF then some e else a.err := by
  unfold absSetErr
  split <;> rfl

/-- After `stepCompact`, either the window was moved to the front (`end`
becomes the window length) or no compaction was needed, in which case
`start` was at most half the buffer. -/
theorem stepCompact_end_le {ρ : Type} (x : Protoscan ρ)
    (h1 : 0 ≤ x.start) (h2 : x.start ≤ x.«end») (h3 : x.«end» ≤ (x.Buffer.length : Int))
    (h4 : (x.Buffer.length : Int) ≤ 2 ^ 61) :
    (stepCompact x).«end» = x.«end» - x.start ∨
    ((stepCompact x).«end» = x.«end» ∧ x.start ≤ (x.Buffer.length : Int) / 2) := by
  unfold stepCompact
  split
  · exact Or.inl (compact_end x h1 h2 (by omega))
  · rename_i hcond
    push_neg at hcond
    right
    refine ⟨rfl, ?_⟩
    by_cases hs : x.start = 0
    · omega
    · exact (hcond (by omega)).2

theorem listWrite_window (B : List UInt8) (st en : Nat) (d : List UInt8)
    (h2 : st ≤ en) (h3 : en ≤ B.length) (h4 : en + d.length ≤ B.length) :
    ((listWrite B en d).take (en + d.length)).drop st =
    (B.take en).drop st ++ d := by
  have hd : d.take (B.length - en) = d := List.take_of_length_le (by omega)
  have hlen : (B.take en).length = en := by simp; omega
  unfold listWrite
  rw [hd, List.append_assoc, List.take_append_eq_append_take,
    List.take_of_length_le (by rw [hlen]; omega), hlen, Nat.add_sub_cancel_left,
    List.take_append_eq_append_take, List.take_length, Nat.sub_self, List.take_zero,
    List.append_nil, List.drop_append_of_le_length (by rw [hlen]; omega)]

theorem stepGrow_window {ρ : Type} (claim : Int) (s : Protoscan ρ)
    (h3 : s.«end».toNat ≤ s.Buffer.length) :
    (stepGrow claim s).window = s.window := by
  unfold stepGrow
  split
  · show ((s.Buffer ++ _).take s.«end».toNat).drop s.start.toNat = s.window
    rw [List.take_append_of_le_length h3]
    rfl
  · rfl

theorem window_drop {ρ : Type} (s : Protoscan ρ) (adv : Int) (h0 : 0 ≤ adv)
    (h1 : 0 ≤ s.start) :
    (s.Buffer.take s.«end».toNat).drop (s.start + adv).toNat =
    s.window.drop adv.toNat := by
  unfold Protoscan.window
  rw [List.drop_drop]
  congr 1
  omega

/-- One refill attempt on an exhausted `fullRead` source records `io.EOF`
and leaves the state otherwise unchanged. -/
theorem readLoop_fullRead_eof (claim : Int) (rf : Nat) (g : Protoscan (List UInt8))
    (hrst : g.rst = []) (hlt : g.«end» < claim) (h0 : 0 ≤ g.«end»)
    (h1 : g.«end» ≤ 2 ^ 62) (hbl : g.«end» ≤ (g.Buffer.length : Int)) :
    readLoop fullRead claim (rf + 1) g = some (g.setErr ErrVal.EOF) := by
  have hv : fullRead g.rst (claim - g.«end»).toNat =
      (⟨0, [], some ErrVal.EOF⟩, g.rst) := by
    rw [hrst]
    rfl
  have hw0 : w64 (g.«end» + 0) = g.«end» := by
    rw [Int.add_zero]
    exact w64_eq (by omega) (by omega)
  unfold readLoop
  rw [if_pos hlt]
  simp only [hv, List.take_nil, listWrite_nil, hw0]
  rw [if_neg (by simp; omega)]

/-- One refill attempt on a non-exhausted `fullRead` source delivers
`min region rest.length` bytes and exits the read loop. -/
theorem readLoop_fullRead_data (claim : Int) (rf : Nat) (g : Protoscan (List UInt8))
    (rest : List UInt8) (hrst : g.rst = rest) (hrest : rest ≠ [])
    (hlt : g.«end» < claim) (h0 : 0 ≤ g.start) (h2 : g.start ≤ g.«end»)
    (hcl : claim ≤ (g.Buffer.length : Int)) (hb : (g.Buffer.length : Int) ≤ 2 ^ 61) :
    readLoop fullRead claim (rf + 1) g =
      some { g with
        Buffer := listWrite g.Buffer g.«end».toNat
          (rest.take (min (claim - g.«end»).toNat rest.length)),
        rst := rest.drop (min (claim - g.«end»).toNat rest.length),
        «end» := g.«end» + (min (claim - g.«end»).toNat rest.length : Nat),
        empties := 0 } := by
  have hk1 : 1 ≤ min (claim - g.«end»).toNat rest.length := by
    have : rest.length ≠ 0 := fun hh => hrest (List.eq_nil_of_length_eq_zero hh)
    omega
  have hv : fullRead g.rst (claim - g.«end»).toNat =
      (⟨(min (claim - g.«end»).toNat rest.length : Nat), 
        rest.take (min (claim - g.«end»).toNat rest.length), none⟩,
       rest.drop (min (claim - g.«end»).toNat rest.length)) := by
    rw [hrst]
    unfold fullRead
    rw [if_neg hrest]
  have htt : (rest.take (min (claim - g.«end»).toNat rest.length)).take
      (claim - g.«end»).toNat = rest.take (min (claim - g.«end»).toNat rest.length) := by
    rw [List.take_take]
    congr 1
    omega
  have hw1 : w64 (g.«end» + (min (claim - g.«end»).toNat rest.length : Nat)) =
      g.«end» + (min (claim - g.«end»).toNat rest.length : Nat) :=
    w64_eq (by omega) (by omega)
  unfold readLoop
  rw [if_pos hlt]
  simp only [hv, htt, hw1, listWrite_length]
  rw [if_neg (by push_neg; exact ⟨by omega, by omega⟩)]
  rw [if_pos (by omega)]

@[simp] theorem setErr_window {ρ : Type} (s : Protoscan ρ) (e : ErrVal) :
    (s.setErr e).window = s.window := by
  unfold Protoscan.window
  rw [setErr_Buffer, setErr_end, setErr_start]

theorem simTail (rf : Nat) (n : Int) (hn : n ≤ 2 ^ 62) (a : AbsScan)
    (x : Protoscan (List UInt8)) (hsim : SimRel a x) (herr : x.err = none) :
    (∀ b a', absTail n a = AbsOut.done b a' →
       ∃ s', scanTail fullRead (rf + 1) n x = IterOut.done b s' ∧
         s'.Tokens = a'.Tokens ∧ s'.err = a'.err) ∧
    (∀ a', absTail n a = AbsOut.cont a' →
       ∃ s', scanTail fullRead (rf + 1) n x = IterOut.cont s' ∧ SimRel a' s') := by
  obtain ⟨hw, hr, hm, ht, hi, hg, he, hem, g1, g2, g3, g4, g5, g6, e1, e2⟩ := hsim
  have haerr : a.err = none := by rw [← he]; exact herr
  have hcg := stepCompact_geom x g1 g2 g3 (by omega)
  have hcp := stepCompact_proj (s := x)
  by_cases hneg : n < 0
  · have habsv : absTail n a = AbsOut.done false (absSetErr a ErrVal.NegativeHint) := by
      unfold absTail
      rw [if_pos hneg]
    have hhint : (stepCompact x).hint n = some ErrVal.NegativeHint := by
      unfold Protoscan.hint
      rw [if_pos hneg]
    constructor
    · intro b a' hd
      rw [habsv] at hd
      cases hd
      refine ⟨(stepCompact x).setErr ErrVal.NegativeHint, ?_, ?_, ?_⟩
      · simp only [scanTail, hhint]
      · rw [setErr_Tokens, hcp.2.2.2.2.1, ht, (absSetErr_proj a _).2.2.2.1]
      · rw [setErr_err, absSetErr_err, hcp.2.1, herr, haerr]
    · intro a' hd
      rw [habsv] at hd
      cases hd
  · by_cases hguard : (a.window.length : Int) + n > a.maxB / 2
    · have habsv : absTail n a = AbsOut.guard := by
        unfold absTail
        rw [if_neg hneg, if_pos hguard]
      constructor
      · intro b a' hd
        rw [habsv] at hd
        cases hd
      · intro a' hd
        rw [habsv] at hd
        cases hd
    · push_neg at hneg hguard
      have hwlen : (x.window.length : Int) = x.«end» - x.start := window_length x g1 g2 g3
      have hawlen : (a.window.length : Int) = x.«end» - x.start := by
        rw [← hw]
        exact hwlen
      have hye : (stepCompact x).«end» + n ≤ x.MaxBuffer := by
        rcases stepCompact_end_le x g1 g2 g3 (by omega) with hc | ⟨hc, hhalf⟩
        · rw [hc]
          omega
        · rw [hc]
          omega
      have hw64c : w64 ((stepCompact x).«end» + n) = (stepCompact x).«end» + n :=
        w64_eq (by omega) (by omega)
      have hhint : (stepCompact x).hint n = none := by
        unfold Protoscan.hint
        rw [if_neg (by omega), if_neg]
        rw [hw64c, hcp.1]
        unfold maxInt
        push_neg
        constructor <;> omega
      have hgp := stepGrow_proj (w64 ((stepCompact x).«end» + n)) (stepCompact x)
      have hglen := stepGrow_length (w64 ((stepCompact x).«end» + n)) (stepCompact x)
      by_cases hn0 : n = 0
      · subst hn0
        have habsv : absTail 0 a = AbsOut.cont a := by
          unfold absTail
          rw [if_neg (by omega), if_neg (by omega), if_pos rfl]
        have hgrow : stepGrow (w64 ((stepCompact x).«end» + 0)) (stepCompact x) =
            stepCompact x := by
          unfold stepGrow
          rw [if_neg (by rw [hw64c]; omega)]
        have hrl : readLoop fullRead (w64 ((stepCompact x).«end» + 0)) (rf + 1)
            (stepCompact x) = some (stepCompact x) :=
          readLoop_noop _ _ _ _ (by rw [hw64c]; omega)
        constructor
        · intro b a' hd
          rw [habsv] at hd
          cases hd
        · intro a' hd
          rw [habsv] at hd
          cases hd
          refine ⟨stepCompact x, by simp only [scanTail, hhint]; rw [hgrow, hrl], ?_⟩
          refine ⟨by rw [hcg.2.2.2.2.2, hw], by rw [hcp.2.2.2.1, hr],
            by rw [hcp.1, hm], by rw [hcp.2.2.2.2.1, ht],
            by rw [hcp.2.2.2.2.2.1, hi], by rw [hcp.2.2.2.2.2.2, hg],
            by rw [hcp.2.1, he], by rw [hcp.2.2.1, hem],
            hcg.1, hcg.2.1, hcg.2.2.2.1, by omega, g5, g6, by omega, by omega⟩
      · have hn1 : 1 ≤ n := by omega
        have hlt : (stepGrow (w64 ((stepCompact x).«end» + n)) (stepCompact x)).«end» <
            w64 ((stepCompact x).«end» + n) := by
          rw [hgp.2.2.2.2.2.2.2.2, hw64c]
          omega
        by_cases hrest : a.rest = []
        · have habsv : absTail n a = AbsOut.cont (absSetErr a ErrVal.EOF) := by
            unfold absTail
            rw [if_neg (by omega), if_neg (by omega), if_neg hn0, if_pos hrest]
          have hrl := readLoop_fullRead_eof (w64 ((stepCompact x).«end» + n)) rf
            (stepGrow (w64 ((stepCompact x).«end» + n)) (stepCompact x))
            (by rw [hgp.2.2.2.1, hcp.2.2.2.1, hr, hrest]) hlt
            (by rw [hgp.2.2.2.2.2.2.2.2]; omega)
            (by rw [hgp.2.2.2.2.2.2.2.2]; omega)
            (by rw [hgp.2.2.2.2.2.2.2.2, hglen, hw64c]; omega)
          constructor
          · intro b a' hd
            rw [habsv] at hd
            cases hd
          · intro a' hd
            rw [habsv] at hd
            cases hd
            refine ⟨_, by simp only [scanTail, hhint]; rw [hrl], ?_⟩
            have hgw : (stepGrow (w64 ((stepCompact x).«end» + n))
                (stepCompact x)).window = (stepCompact x).window :=
              stepGrow_window _ _ (by omega)
            refine ⟨by rw [setErr_window, hgw, hcg.2.2.2.2.2, hw,
                (absSetErr_proj a _).1],
              by rw [setErr_rst, hgp.2.2.2.1, hcp.2.2.2.1, hr,
                (absSetErr_proj a _).2.1],
              by rw [setErr_MaxBuffer, hgp.1, hcp.1, hm, (absSetErr_proj a _).2.2.1],
              by rw [setErr_Tokens, hgp.2.2.2.2.1, hcp.2.2.2.2.1, ht,
                (absSetErr_proj a _).2.2.2.1],
              by rw [setErr_Indexes, hgp.2.2.2.2.2.1, hcp.2.2.2.2.2.1, hi,
                (absSetErr_proj a _).2.2.2.2.1],
              by rw [setErr_Gaps, hgp.2.2.2.2.2.2.1, hcp.2.2.2.2.2.2, hg,
                (absSetErr_proj a _).2.2.2.2.2.1],
              by rw [setErr_err, absSetErr_err, hgp.2.1, hcp.2.1, herr, haerr],
              by rw [setErr_empties, hgp.2.2.1, hcp.2.2.1, hem,
                (absSetErr_proj a _).2.2.2.2.2.2],
              ?_, ?_, ?_, ?_, ?_, ?_, ?_, ?_⟩
            · rw [setErr_start, hgp.2.2.2.2.2.2.2.1]
              exact hcg.1
            · rw [setErr_start, setErr_end, hgp.2.2.2.2.2.2.2.1,
                hgp.2.2.2.2.2.2.2.2]
              exact hcg.2.1
            · rw [setErr_end, setErr_Buffer, hgp.2.2.2.2.2.2.2.2, hglen]
              have : (stepCompact x).«end» ≤ ((stepCompact x).Buffer.length : Int) :=
                hcg.2.2.2.1
              omega
            · rw [setErr_Buffer, hglen, (absSetErr_proj a _).2.2.1, hw64c]
              have h4' : ((stepCompact x).Buffer.length : Int) ≤ a.maxB := by
                rw [hcg.2.2.2.2.1]
                exact g4
              omega
            · rw [(absSetErr_proj a _).2.2.1]
              exact g5
            · rw [(absSetErr_proj a _).2.2.1]
              exact g6
            · rw [setErr_empties, hgp.2.2.1, hcp.2.2.1]
              omega
            · rw [setErr_empties, hgp.2.2.1, hcp.2.2.1]
              omega
        · have habsv : absTail n a = AbsOut.cont { a with
              window := a.window ++ a.rest.take (min n.toNat a.rest.length),
              rest := a.rest.drop (min n.toNat a.rest.length), empties := 0 } := by
            unfold absTail
            rw [if_neg (by omega), if_neg (by omega), if_neg hn0, if_neg hrest]
          have hrl := readLoop_fullRead_data (w64 ((stepCompact x).«end» + n)) rf
            (stepGrow (w64 ((stepCompact x).«end» + n)) (stepCompact x)) a.rest
            (by rw [hgp.2.2.2.1, hcp.2.2.2.1, hr]) hrest hlt
            (by rw [hgp.2.2.2.2.2.2.2.1]; exact hcg.1)
            (by rw [hgp.2.2.2.2.2.2.2.1, hgp.2.2.2.2.2.2.2.2]; exact hcg.2.1)
            (by rw [hglen]; omega)
            (by rw [hglen, hw64c]; omega)
          have hKeq : (w64 ((stepCompact x).«end» + n) -
              (stepGrow (w64 ((stepCompact x).«end» + n)) (stepCompact x)).«end»).toNat =
              n.toNat := by
            rw [hgp.2.2.2.2.2.2.2.2, hw64c]
            omega
          constructor
          · intro b a' hd
            rw [habsv] at hd
            cases hd
          · intro a' hd
            rw [habsv] at hd
            cases hd
            rw [hKeq] at hrl
            refine ⟨_, by simp only [scanTail, hhint]; rw [hrl], ?_⟩
            have hKd : (a.rest.take (min n.toNat a.rest.length)).length =
                min n.toNat a.rest.length := by
              rw [List.length_take]
              omega
            have hgw : (stepGrow (w64 ((stepCompact x).«end» + n))
                (stepCompact x)).window = (stepCompact x).window :=
              stepGrow_window _ _ (by omega)
            have hge := hgp.2.2.2.2.2.2.2.2
            have hgs := hgp.2.2.2.2.2.2.2.1
            have hglen2 : ((stepGrow (w64 ((stepCompact x).«end» + n))
                (stepCompact x)).Buffer.length : Int) =
                max ((stepCompact x).Buffer.length : Int) ((stepCompact x).«end» + n) := by
              rw [hglen, hw64c]
            refine ⟨?_, rfl, ?_, ?_, ?_, ?_, ?_, rfl, ?_, ?_, ?_, ?_, g5, g6,
              le_refl 0, le_of_lt (by norm_num : (0 : Int) < 1001)⟩
            · show ((listWrite
                  (stepGrow (w64 ((stepCompact x).«end» + n)) (stepCompact x)).Buffer
                  (stepGrow (w64 ((stepCompact x).«end» + n)) (stepCompact x)).«end».toNat
                  (a.rest.take (min n.toNat a.rest.length))).take
                  ((stepGrow (w64 ((stepCompact x).«end» + n)) (stepCompact x)).«end» +
                    ((min n.toNat a.rest.length : Nat) : Int)).toNat).drop
                  (stepGrow (w64 ((stepCompact x).«end» + n)) (stepCompact x)).start.toNat =
                a.window ++ a.rest.take (min n.toNat a.rest.length)
              have ht1 : ((stepGrow (w64 ((stepCompact x).«end» + n)) (stepCompact x)).«end» +
                  ((min n.toNat a.rest.length : Nat) : Int)).toNat =
                  (stepGrow (w64 ((stepCompact x).«end» + n)) (stepCompact x)).«end».toNat +
                  (a.rest.take (min n.toNat a.rest.length)).length := by
                rw [hKd, hge]
                omega
              rw [ht1, listWrite_window _ _ _ _ (by omega) (by omega) (by rw [hKd]; omega)]
              exact congrArg (fun w => w ++ a.rest.take (min n.toNat a.rest.length))
                ((hgw.trans hcg.2.2.2.2.2).trans hw)
            · exact (hgp.1.trans hcp.1).trans hm
            · exact (hgp.2.2.2.2.1.trans hcp.2.2.2.2.1).trans ht
            · exact (hgp.2.2.2.2.2.1.trans hcp.2.2.2.2.2.1).trans hi
            · exact (hgp.2.2.2.2.2.2.1.trans hcp.2.2.2.2.2.2).trans hg
            · exact (hgp.2.1.trans hcp.2.1).trans he
            · show (0 : Int) ≤
                (stepGrow (w64 ((stepCompact x).«end» + n)) (stepCompact x)).start
              omega
            · show (stepGrow (w64 ((stepCompact x).«end» + n)) (stepCompact x)).start ≤
                (stepGrow (w64 ((stepCompact x).«end» + n)) (stepCompact x)).«end» +
                ((min n.toNat a.rest.length : Nat) : Int)
              omega
            · show (stepGrow (w64 ((stepCompact x).«end» + n)) (stepCompact x)).«end» +
                ((min n.toNat a.rest.length : Nat) : Int) ≤
                ((listWrite (stepGrow (w64 ((stepCompact x).«end» + n))
                  (stepCompact x)).Buffer
                  (stepGrow (w64 ((stepCompact x).«end» + n)) (stepCompact x)).«end».toNat
                  (a.rest.take (min n.toNat a.rest.length))).length : Int)
              rw [listWrite_length]
              omega
            · show ((listWrite (stepGrow (w64 ((stepCompact x).«end» + n))
                  (stepCompact x)).Buffer
                  (stepGrow (w64 ((stepCompact x).«end» + n)) (stepCompact x)).«end».toNat
                  (a.rest.take (min n.toNat a.rest.length))).length : Int) ≤ a.maxB
              rw [listWrite_length]
              omega

theorem absTail_done_false (n : Int) (a : AbsScan) (b : Bool) (a' : AbsScan)
    (h : absTail n a = AbsOut.done b a') : b = false := by
  unfold absTail at h
  split at h
  · cases h
    rfl
  · split at h
    · cases h
    · split at h
      · cases h
      · split at h
        · cases h
        · cases h

theorem simIter (split : SplitFunc) (Hs : SplitBounded split) (rf : Nat) (a : AbsScan)
    (s : Protoscan (List UInt8)) (hsim : SimRel a s) :
    (∀ b a', absIter split a = AbsOut.done b a' →
       ∃ s', scanIter split fullRead (rf + 1) s = IterOut.done b s' ∧
         s'.Tokens = a'.Tokens ∧ s'.err = a'.err ∧ (b = true → SimRel a' s')) ∧
    (∀ a', absIter split a = AbsOut.cont a' →
       ∃ s', scanIter split fullRead (rf + 1) s = IterOut.cont s' ∧ SimRel a' s') := by
  obtain ⟨hw, hr, hm, ht, hi, hg, he, hem, g1, g2, g3, g4, g5, g6, e1, e2⟩ := hsim
  have hwlen : (s.window.length : Int) = s.«end» - s.start := window_length s g1 g2 g3
  have hawlen : (a.window.length : Int) = s.«end» - s.start := by
    rw [← hw]
    exact hwlen
  have hwl : (a.window.length : Int) ≤ 2 ^ 61 := by omega
  have hadvb : (split a.window (a.err = some ErrVal.EOF)).advance ≤ 2 ^ 62 :=
    (Hs a.window _ hwl).1
  have hhintb : (split a.window (a.err = some ErrVal.EOF)).hint ≤ 2 ^ 62 :=
    (Hs a.window _ hwl).2
  set o := split a.window (a.err = some ErrVal.EOF) with ho
  have hoeq : split s.window (s.err = some ErrVal.EOF) = o := by
    rw [hw, he, ho]
  have hteq : (stepTrunc o s).err = s.err := rfl
  have hws : ¬ o.advance < 0 → w64 (s.start + o.advance) = s.start + o.advance :=
    fun hh => w64_eq (by omega) (by omega)
  have hmci : maxConsecutiveIdling = 1000 := rfl
  have hwe : w64 (s.empties + 1) = s.empties + 1 := w64_eq (by omega) (by omega)
  have hempeq : w64 (s.empties + 1) = w64 (a.empties + 1) := by rw [hem]
  constructor
  · intro b a' hd
    simp only [absIter] at hd
    rw [← ho] at hd
    split at hd
    · rename_i e heq
      cases hd
      refine ⟨(stepTrunc o s).setErr e, by simp only [scanIter, hoeq, heq], ?_, ?_, ?_⟩
      · rw [setErr_Tokens, (absSetErr_proj _ _).2.2.2.1]; rfl
      · rw [setErr_err, absSetErr_err, hteq, he]
      · intro _
        refine ⟨by rw [setErr_window, (absSetErr_proj _ _).1]; exact hw,
          by rw [setErr_rst, (absSetErr_proj _ _).2.1]; exact hr,
          by rw [setErr_MaxBuffer, (absSetErr_proj _ _).2.2.1]; exact hm,
          by rw [setErr_Tokens, (absSetErr_proj _ _).2.2.2.1]; rfl,
          by rw [setErr_Indexes, (absSetErr_proj _ _).2.2.2.2.1]; rfl,
          by rw [setErr_Gaps, (absSetErr_proj _ _).2.2.2.2.2.1]; rfl,
          by rw [setErr_err, absSetErr_err, hteq, he],
          by rw [setErr_empties, (absSetErr_proj _ _).2.2.2.2.2.2]; exact hem,
          by rw [setErr_start]; exact g1,
          by rw [setErr_start, setErr_end]; exact g2,
          by rw [setErr_end, setErr_Buffer]; exact g3,
          by rw [setErr_Buffer, (absSetErr_proj _ _).2.2.1]; exact g4,
          by rw [(absSetErr_proj _ _).2.2.1]; exact g5,
          by rw [(absSetErr_proj _ _).2.2.1]; exact g6,
          by rw [setErr_empties]; exact e1,
          by rw [setErr_empties]; exact e2⟩
    · rename_i heq
      split at hd
      · rename_i hcond
        cases hd
        have hserr : (stepTrunc o s).err ≠ none := by
          rw [hteq, he]
          exact hcond
        refine ⟨stepTrunc o s,
          by simp only [scanIter, hoeq, heq]; rw [if_pos hserr], rfl, he,
          fun hb => Bool.noConfusion hb⟩
      · rename_i hcond2
        have haerr : a.err = none := by simpa using hcond2
        have hserr : s.err = none := he.trans haerr
        have hserr2 : ¬ (stepTrunc o s).err ≠ none := by
          rw [hteq, hserr]
          simp
        split at hd
        · rename_i hneg
          cases hd
          have hadvv : (stepTrunc o s).advance o.advance =
              some ErrVal.NegativeAdvance := by
            unfold Protoscan.advance
            rw [if_pos hneg]
          refine ⟨(stepTrunc o s).setErr ErrVal.NegativeAdvance,
            by simp only [scanIter, hoeq, heq]; rw [if_neg hserr2]
               simp only [hadvv], ?_, ?_, fun hb => Bool.noConfusion hb⟩
          · rw [setErr_Tokens, (absSetErr_proj _ _).2.2.2.1]; rfl
          · rw [setErr_err, absSetErr_err, hteq, he]
        · rename_i hnn
          split at hd
          · rename_i hfar
            cases hd
            have hadvv : (stepTrunc o s).advance o.advance =
                some ErrVal.AdvanceTooFar := by
              unfold Protoscan.advance
              rw [if_neg hnn, if_pos (show w64 ((stepTrunc o s).start + o.advance) >
                (stepTrunc o s).«end» by
                  show w64 (s.start + o.advance) > s.«end»
                  rw [hws hnn]
                  omega)]
            refine ⟨(stepTrunc o s).setErr ErrVal.AdvanceTooFar,
              by simp only [scanIter, hoeq, heq]; rw [if_neg hserr2]
                 simp only [hadvv], ?_, ?_, fun hb => Bool.noConfusion hb⟩
            · rw [setErr_Tokens, (absSetErr_proj _ _).2.2.2.1]; rfl
            · rw [setErr_err, absSetErr_err, hteq, he]
          · rename_i hnf
            have hadvok : (stepTrunc o s).advance o.advance = none := by
              unfold Protoscan.advance
              rw [if_neg hnn, if_neg (show ¬ w64 ((stepTrunc o s).start + o.advance) >
                (stepTrunc o s).«end» by
                  show ¬ w64 (s.start + o.advance) > s.«end»
                  rw [hws hnn]
                  omega)]
            split at hd
            · rename_i htok
              cases hd
              have htok2 : (stepStart o.advance (stepTrunc o s)).Indexes.length ≠ 0 ∧
                  o.advance > 0 := htok
              refine ⟨stepZero (stepStart o.advance (stepTrunc o s)),
                by simp only [scanIter, hoeq, heq]; rw [if_neg hserr2]
                   simp only [hadvok]; rw [if_pos htok2], rfl, he, fun _ => ?_⟩
              refine ⟨?_, hr, hm, rfl, rfl, rfl, he, rfl,
                by show 0 ≤ w64 (s.start + o.advance); rw [hws hnn]; omega,
                by show w64 (s.start + o.advance) ≤ s.«end»; rw [hws hnn]; omega,
                g3, g4, g5, g6, le_refl 0,
                le_of_lt (by norm_num : (0 : Int) < 1001)⟩
              show (s.Buffer.take s.«end».toNat).drop (w64 (s.start + o.advance)).toNat =
                a.window.drop o.advance.toNat
              rw [hws hnn, window_drop s o.advance (by omega) g1, hw]
            · rename_i htokn
              split at hd
              · rename_i hpos
                have hsimZ : SimRel
                    { a with
                        Tokens := o.tokens, Indexes := o.indexes, Gaps := o.gaps,
                        window := a.window.drop o.advance.toNat, empties := 0 }
                    (stepZero (stepStart o.advance (stepTrunc o s))) := by
                  refine ⟨?_, hr, hm, rfl, rfl, rfl, he, rfl,
                    by show 0 ≤ w64 (s.start + o.advance); rw [hws hnn]; omega,
                    by show w64 (s.start + o.advance) ≤ s.«end»; rw [hws hnn]; omega,
                    g3, g4, g5, g6, le_refl 0,
                    le_of_lt (by norm_num : (0 : Int) < 1001)⟩
                  show (s.Buffer.take s.«end».toNat).drop
                      (w64 (s.start + o.advance)).toNat =
                    a.window.drop o.advance.toNat
                  rw [hws hnn, window_drop s o.advance (by omega) g1, hw]
                have hIterEq : scanIter split fullRead (rf + 1) s =
                    scanTail fullRead (rf + 1) o.hint
                      (stepZero (stepStart o.advance (stepTrunc o s))) := by
                  simp only [scanIter, hoeq, heq]
                  rw [if_neg hserr2]
                  simp only [hadvok]
                  rw [if_neg (show ¬ ((stepStart o.advance (stepTrunc o s)).Indexes.length ≠ 0 ∧
                    o.advance > 0) from htokn), if_pos hpos]
                obtain ⟨s', hs'eq, hTok, hErr⟩ :=
                  (simTail rf o.hint hhintb _ _ hsimZ (show _ = none from hserr)).1 b a' hd
                exact ⟨s', hIterEq.trans hs'eq, hTok, hErr, fun hb => by
                  rw [absTail_done_false _ _ _ _ hd] at hb
                  exact Bool.noConfusion hb⟩
              · rename_i hposn
                split at hd
                · rename_i hidle
                  cases hd
                  have hidle2 : (stepIdle (stepStart o.advance
                      (stepTrunc o s))).empties > maxConsecutiveIdling := by
                    show w64 (s.empties + 1) > maxConsecutiveIdling
                    rw [hempeq]
                    exact hidle
                  refine ⟨(stepIdle (stepStart o.advance (stepTrunc o s))).setErr
                      ErrVal.NoProgress,
                    by simp only [scanIter, hoeq, heq]; rw [if_neg hserr2]
                       simp only [hadvok]
                       rw [if_neg (show ¬ ((stepStart o.advance
                           (stepTrunc o s)).Indexes.length ≠ 0 ∧
                         o.advance > 0) from htokn), if_neg hposn, if_pos hidle2],
                    ?_, ?_, fun hb => Bool.noConfusion hb⟩
                  · rw [setErr_Tokens, (absSetErr_proj _ _).2.2.2.1]; rfl
                  · rw [setErr_err, absSetErr_err]
                    show (if s.err = none ∨ s.err = some ErrVal.EOF
                        then some ErrVal.NoProgress else s.err) = _
                    rw [he]
                · rename_i hidlen
                  have hsimI : SimRel
                      { a with
                          Tokens := o.tokens, Indexes := o.indexes, Gaps := o.gaps,
                          window := a.window.drop o.advance.toNat,
                          empties := w64 (a.empties + 1) }
                      (stepIdle (stepStart o.advance (stepTrunc o s))) := by
                    have hidlen2 : w64 (a.empties + 1) ≤ 1000 := by
                      have := hidlen
                      rw [hmci] at this
                      omega
                    refine ⟨?_, hr, hm, rfl, rfl, rfl, he, hempeq,
                      by show 0 ≤ w64 (s.start + o.advance); rw [hws hnn]; omega,
                      by show w64 (s.start + o.advance) ≤ s.«end»; rw [hws hnn]; omega,
                      g3, g4, g5, g6,
                      by show 0 ≤ w64 (s.empties + 1); rw [hwe]; omega,
                      by show w64 (s.empties + 1) ≤ 1001; rw [hempeq]; omega⟩
                    show (s.Buffer.take s.«end».toNat).drop
                        (w64 (s.start + o.advance)).toNat =
                      a.window.drop o.advance.toNat
                    rw [hws hnn, window_drop s o.advance (by omega) g1, hw]
                  have hIterEq : scanIter split fullRead (rf + 1) s =
                      scanTail fullRead (rf + 1) o.hint
                        (stepIdle (stepStart o.advance (stepTrunc o s))) := by
                    simp only [scanIter, hoeq, heq]
                    rw [if_neg hserr2]
                    simp only [hadvok]
                    rw [if_neg (show ¬ ((stepStart o.advance
                        (stepTrunc o s)).Indexes.length ≠ 0 ∧
                      o.advance > 0) from htokn), if_neg hposn,
                      if_neg (show ¬ (stepIdle (stepStart o.advance
                          (stepTrunc o s))).empties > maxConsecutiveIdling by
                        show ¬ w64 (s.empties + 1) > maxConsecutiveIdling
                        rw [hempeq]
                        exact hidlen)]
                  obtain ⟨s', hs'eq, hTok, hErr⟩ :=
                    (simTail rf o.hint hhintb _ _ hsimI (show _ = none from hserr)).1 b a' hd
                  exact ⟨s', hIterEq.trans hs'eq, hTok, hErr, fun hb => by
                    rw [absTail_done_false _ _ _ _ hd] at hb
                    exact Bool.noConfusion hb⟩
  · intro a' hd
    simp only [absIter] at hd
    rw [← ho] at hd
    split at hd
    · cases hd
    · rename_i heq
      split at hd
      · cases hd
      · rename_i hcond2
        have haerr : a.err = none := by simpa using hcond2
        have hserr : s.err = none := he.trans haerr
        have hserr2 : ¬ (stepTrunc o s).err ≠ none := by
          rw [hteq, hserr]
          simp
        split at hd
        · cases hd
        · rename_i hnn
          split at hd
          · cases hd
          · rename_i hnf
            have hadvok : (stepTrunc o s).advance o.advance = none := by
              unfold Protoscan.advance
              rw [if_neg hnn, if_neg (show ¬ w64 ((stepTrunc o s).start + o.advance) >
                (stepTrunc o s).«end» by
                  show ¬ w64 (s.start + o.advance) > s.«end»
                  rw [hws hnn]
                  omega)]
            split at hd
            · cases hd
            · rename_i htokn
              split at hd
              · rename_i hpos
                have hsimZ : SimRel
                    { a with
                        Tokens := o.tokens, Indexes := o.indexes, Gaps := o.gaps,
                        window := a.window.drop o.advance.toNat, empties := 0 }
                    (stepZero (stepStart o.advance (stepTrunc o s))) := by
                  refine ⟨?_, hr, hm, rfl, rfl, rfl, he, rfl,
                    by show 0 ≤ w64 (s.start + o.advance); rw [hws hnn]; omega,
                    by show w64 (s.start + o.advance) ≤ s.«end»; rw [hws hnn]; omega,
                    g3, g4, g5, g6, le_refl 0,
                    le_of_lt (by norm_num : (0 : Int) < 1001)⟩
                  show (s.Buffer.take s.«end».toNat).drop
                      (w64 (s.start + o.advance)).toNat =
                    a.window.drop o.advance.toNat
                  rw [hws hnn, window_drop s o.advance (by omega) g1, hw]
                have hIterEq : scanIter split fullRead (rf + 1) s =
                    scanTail fullRead (rf + 1) o.hint
                      (stepZero (stepStart o.advance (stepTrunc o s))) := by
                  simp only [scanIter, hoeq, heq]
                  rw [if_neg hserr2]
                  simp only [hadvok]
                  rw [if_neg (show ¬ ((stepStart o.advance (stepTrunc o s)).Indexes.length ≠ 0 ∧
                    o.advance > 0) from htokn), if_pos hpos]
                obtain ⟨s', hs'eq, hsim'⟩ :=
                  (simTail rf o.hint hhintb _ _ hsimZ (show _ = none from hserr)).2 a' hd
                exact ⟨s', hIterEq.trans hs'eq, hsim'⟩
              · rename_i hposn
                split at hd
                · cases hd
                · rename_i hidlen
                  have hsimI : SimRel
                      { a with
                          Tokens := o.tokens, Indexes := o.indexes, Gaps := o.gaps,
                          window := a.window.drop o.advance.toNat,
                          empties := w64 (a.empties + 1) }
                      (stepIdle (stepStart o.advance (stepTrunc o s))) := by
                    have hidlen2 : w64 (a.empties + 1) ≤ 1000 := by
                      have := hidlen
                      rw [hmci] at this
                      omega
                    refine ⟨?_, hr, hm, rfl, rfl, rfl, he, hempeq,
                      by show 0 ≤ w64 (s.start + o.advance); rw [hws hnn]; omega,
                      by show w64 (s.start + o.advance) ≤ s.«end»; rw [hws hnn]; omega,
                      g3, g4, g5, g6,
                      by show 0 ≤ w64 (s.empties + 1); rw [hwe]; omega,
                      by show w64 (s.empties + 1) ≤ 1001; rw [hempeq]; omega⟩
                    show (s.Buffer.take s.«end».toNat).drop
                        (w64 (s.start + o.advance)).toNat =
                      a.window.drop o.advance.toNat
                    rw [hws hnn, window_drop s o.advance (by omega) g1, hw]
                  have hIterEq : scanIter split fullRead (rf + 1) s =
                      scanTail fullRead (rf + 1) o.hint
                        (stepIdle (stepStart o.advance (stepTrunc o s))) := by
                    simp only [scanIter, hoeq, heq]
                    rw [if_neg hserr2]
                    simp only [hadvok]
                    rw [if_neg (show ¬ ((stepStart o.advance
                        (stepTrunc o s)).Indexes.length ≠ 0 ∧
                      o.advance > 0) from htokn), if_neg hposn,
                      if_neg (show ¬ (stepIdle (stepStart o.advance
                          (stepTrunc o s))).empties > maxConsecutiveIdling by
                        show ¬ w64 (s.empties + 1) > maxConsecutiveIdling
                        rw [hempeq]
                        exact hidlen)]
                  obtain ⟨s', hs'eq, hsim'⟩ :=
                    (simTail rf o.hint hhintb _ _ hsimI (show _ = none from hserr)).2 a' hd
                  exact ⟨s', hIterEq.trans hs'eq, hsim'⟩


theorem simLoop (split : SplitFunc) (Hs : SplitBounded split) (rf : Nat) :
    ∀ (fuel : Nat) (a : AbsScan) (s : Protoscan (List UInt8)), SimRel a s →
      ∀ (b : Bool) (a' : AbsScan), absScanLoop split fuel a = some (b, a') →
        ∃ s', scanLoop split fullRead (rf + 1) fuel s = some (b, s') ∧
          s'.Tokens = a'.Tokens ∧ s'.err = a'.err ∧ (b = true → SimRel a' s') := by
  intro fuel
  induction fuel with
  | zero =>
    intro a s _ b a' h
    cases h
  | succ fuel ih =>
    intro a s hsim b a' h
    rw [absScanLoop] at h
    cases hio : absIter split a with
    | done b2 a2 =>
      simp only [hio] at h
      injection h with h1
      injection h1 with hb ha
      subst hb
      subst ha
      obtain ⟨s', heng, hTok, hErr, hSim⟩ := (simIter split Hs rf a s hsim).1 b2 a2 hio
      refine ⟨s', ?_, hTok, hErr, hSim⟩
      rw [scanLoop]
      simp only [heng]
    | cont a2 =>
      simp only [hio] at h
      obtain ⟨s', heng, hsim2⟩ := (simIter split Hs rf a s hsim).2 a2 hio
      obtain ⟨s'', hloop, hTok, hErr, hSim⟩ := ih a2 s' hsim2 b a' h
      refine ⟨s'', ?_, hTok, hErr, hSim⟩
      rw [scanLoop]
      simp only [heng]
      exact hloop
    | guard =>
      simp only [hio] at h
      exact Option.noConfusion h

theorem simScan (split : SplitFunc) (Hs : SplitBounded split) (rf fuel : Nat)
    (a : AbsScan) (s : Protoscan (List UInt8)) (hsim : SimRel a s)
    (b : Bool) (a' : AbsScan) (h : absScan split fuel a = some (b, a')) :
    ∃ s', Protoscan.Scan split fullRead fuel (rf + 1) s = some (b, s') ∧
      s'.Tokens = a'.Tokens ∧ s'.err = a'.err ∧ (b = true → SimRel a' s') := by
  have hm : s.MaxBuffer = a.maxB := hsim.2.2.1
  have ht : s.Tokens = a.Tokens := hsim.2.2.2.1
  have he : s.err = a.err := hsim.2.2.2.2.2.2.1
  have g5 : 1 ≤ a.maxB := hsim.2.2.2.2.2.2.2.2.2.2.2.2.1
  have hmb : ¬ s.MaxBuffer = 0 := by omega
  unfold absScan at h
  simp only [Protoscan.Scan]
  rw [if_neg hmb]
  by_cases hft : a.err = some ErrVal.FinalToken
  · rw [if_pos hft] at h
    injection h with h1
    injection h1 with hb ha
    subst hb
    subst ha
    rw [if_pos (he.trans hft)]
    exact ⟨s, rfl, ht, he, fun hb => Bool.noConfusion hb⟩
  · rw [if_neg hft] at h
    rw [if_neg (fun hh => hft (he.symm.trans hh))]
    exact simLoop split Hs rf fuel a s hsim b a' h

theorem simScanAll (split : SplitFunc) (Hs : SplitBounded split) (rf fuel : Nat) :
    ∀ (m : Nat) (a : AbsScan) (s : Protoscan (List UInt8)), SimRel a s →
      ∀ (ts : List (List UInt8)) (a' : AbsScan),
        absScanAll split fuel m a = some (ts, a') →
        ∃ s', scanAll split fullRead fuel (rf + 1) m s = some (ts, s') ∧
          s'.err = a'.err := by
  intro m
  induction m with
  | zero =>
    intro a s _ ts a' h
    cases h
  | succ m ih =>
    intro a s hsim ts a' h
    rw [absScanAll] at h
    cases hsc : absScan split fuel a with
    | none =>
      simp only [hsc] at h
      exact Option.noConfusion h
    | some p =>
      obtain ⟨b, a1⟩ := p
      simp only [hsc] at h
      cases b with
      | false =>
        injection h with h1
        injection h1 with hts ha
        subst hts
        subst ha
        obtain ⟨s1, hS, _, hErr, _⟩ := simScan split Hs rf fuel a s hsim false a1 hsc
        refine ⟨s1, ?_, hErr⟩
        rw [scanAll]
        simp only [hS]
      | true =>
        cases hrec : absScanAll split fuel m a1 with
        | none =>
          simp only [hrec] at h
          exact Option.noConfusion h
        | some q =>
          obtain ⟨ts1, a2⟩ := q
          simp only [hrec] at h
          injection h with h1
          injection h1 with hts ha
          subst hts
          subst ha
          obtain ⟨s1, hS, hTok, hErr, hSim⟩ :=
            simScan split Hs rf fuel a s hsim true a1 hsc
          obtain ⟨s2, hA, hErr2⟩ := ih a1 s1 (hSim rfl) ts1 a2 hrec
          refine ⟨s2, ?_, hErr2⟩
          rw [scanAll]
          simp only [hS, hA]
          rw [hTok]

/-- C2: if the abstract window machine — the specification reading of the
`Scan` loop, in which the unconsumed bytes are a plain list refilled maximally
from the remaining input — completes a session of `m` `Scan` calls on `input`,
producing the token payloads `ts` and stopping, then the buffer-based engine
over the honest maximal reader performs the very same session: the same `ts`
(so `true` is returned once per emitted token batch, in order, then `false`),
and `Err()` returns nil when the abstract session ended with one of the two
benign sentinels (`io.EOF` or `FinalToken`). -/
theorem Scan_partition_tokens (split : SplitFunc) (Hs : SplitBounded split)
    (input : List UInt8) (maxB : Int) (hmb1 : 1 ≤ maxB) (hmb2 : maxB ≤ 2 ^ 61)
    (m fuel rf : Nat) (ts : List (List UInt8)) (afin : AbsScan)
    (habs : absScanAll split fuel m (absInit input maxB) = some (ts, afin))
    (hclean : afin.err = some ErrVal.EOF ∨ afin.err = some ErrVal.FinalToken) :
    ∃ sfin : Protoscan (List UInt8),
      scanAll split fullRead fuel (rf + 1) m (initScanner [] maxB input) =
        some (ts, sfin) ∧ sfin.Err = none := by
  have hsim0 : SimRel (absInit input maxB) (initScanner [] maxB input) := by
    refine ⟨rfl, rfl, rfl, rfl, rfl, rfl, rfl, rfl, le_refl 0, le_refl 0, le_refl 0,
      ?_, hmb1, hmb2, le_refl 0, le_of_lt (by norm_num : (0 : Int) < 1001)⟩
    show (0 : Int) ≤ maxB
    omega
  obtain ⟨sfin, hrun, herr⟩ := simScanAll split Hs rf fuel m _ _ hsim0 ts afin habs
  refine ⟨sfin, hrun, ?_⟩
  unfold Protoscan.Err
  rw [if_pos (by rw [herr]; exact hclean)]

/-- Witness for C2: the comma-splitting session on `"1,2,3,"`, which the
abstract machine partitions into the three tokens `"1"`, `"2"`, `"3"` and
finishes at `io.EOF`. -/
theorem Scan_partition_tokens_witness :
    ∃ sfin : Protoscan (List UInt8),
      scanAll commaSplit fullRead 20 (9 + 1) 6 (initScanner [] 65536 commaInput) =
        some ([[49], [50], [51]], sfin) ∧ sfin.Err = none :=
  Scan_partition_tokens commaSplit
    (by
      intro w f hw
      cases hfi : w.findIdx? (fun b => b = 44) with
      | some i =>
        have hv : commaSplit w f = ⟨0, (i : Int) + 1, w.take i, [(i : Int)], [], none⟩ := by
          unfold commaSplit
          rw [hfi]
        have hi : i < w.length := (List.findIdx?_eq_some_iff_findIdx_eq.mp hfi).1
        rw [hv]
        refine ⟨?_, ?_⟩
        · show ((i : Int) + 1) ≤ 2 ^ 62
          omega
        · show (0 : Int) ≤ 2 ^ 62
          norm_num
      | none =>
        by_cases h1 : f = true ∧ w.length > 0
        · have hv : commaSplit w f = ⟨0, (w.length : Int), w, [(w.length : Int)], [],
              some ErrVal.FinalToken⟩ := by
            unfold commaSplit
            rw [hfi, if_pos h1]
          rw [hv]
          refine ⟨?_, ?_⟩
          · show (w.length : Int) ≤ 2 ^ 62
            omega
          · show (0 : Int) ≤ 2 ^ 62
            norm_num
        · have hv : commaSplit w f = (if f = true then ⟨0, 0, [], [], [], none⟩
              else ⟨1, 0, [], [], [], none⟩) := by
            unfold commaSplit
            rw [hfi, if_neg h1]
          rw [hv]
          by_cases h2 : f = true
          · rw [if_pos h2]
            refine ⟨?_, ?_⟩
            · show (0 : Int) ≤ 2 ^ 62
              norm_num
            · show (0 : Int) ≤ 2 ^ 62
              norm_num
          · rw [if_neg h2]
            refine ⟨?_, ?_⟩
            · show (0 : Int) ≤ 2 ^ 62
              norm_num
            · show (1 : Int) ≤ 2 ^ 62
              norm_num)
    commaInput 65536 (by norm_num) (by norm_num) 6 20 9 [[49], [50], [51]]
    ⟨[], [], 65536, [], [], [], some ErrVal.EOF, 1⟩ (by rfl) (Or.inl rfl)
